import Mathlib

/-!
Shallow embedding of the audio-transcription pipeline of this repository.

Two endpoints carry the chunking / multi-segment transcription logic:

* `src/pages/api/transcribe.js` (first variant, lines 1-201): an SSE
  streaming handler.  Constants `MAX_FILE_SIZE = 25*1024*1024` and an upload
  cap of `MAX_FILE_SIZE * 4`.  It optionally compresses once, then either
  transcribes directly or splits into 9-minute chunks
  (`splitAudioIntoChunksByDuration`), transcribing them sequentially with a
  `prevText` context (last 1000 chars of the previous chunk's transcript)
  and unlinking each chunk file right after a successful transcription.
  A chunk transcription failure throws, reaching the outer catch.

* `src/pages/api/history.js` (second variant, lines 40-373): a JSON handler
  backed by Supabase.  Constants `MAX_FILE_SIZE = 25*1024*1024`,
  `MAX_DURATION = 5*60`, `CHUNK_DURATION = 4.5*60`.  Direct branch iff
  `actualSize <= MAX_FILE_SIZE && duration <= MAX_DURATION`; otherwise it
  materializes `ceil(duration / CHUNK_DURATION)` WAV chunks
  (`splitAudioIntoChunks`, with `startTime = i*CHUNK_DURATION` and
  `endTime = min((i+1)*CHUNK_DURATION, duration)`), transcribes them
  sequentially without any context prompt, replaces a failed chunk's text by
  `"[Error transcribing this chunk: ...]"`, joins with `' '`, and attempts a
  best-effort database insert.

External collaborators (formidable upload parsing, ffprobe, ffmpeg, the
speech-to-text provider, the Supabase insert) are modelled as oracles in an
environment record; each handler is a pure function from that environment to
an ordered trace of observable events (file creations/deletions, provider
calls with their prompt, SSE messages, persistence attempts) plus, for the
history endpoint, the JSON response.

A JavaScript semantics fact that the history model must reflect: in the
chunked branch the source reads

    try {
      const chunkPaths = await splitAudioIntoChunks(...);
      ...
      return res.status(200).json({...});
    } finally {
      await cleanupFiles([tempFilePath, ...chunkPaths], tempDir);
    }

`chunkPaths` is a `const` declared inside the `try` block, hence block-scoped
to it and not visible in the `finally` block; evaluating the argument
`[tempFilePath, ...chunkPaths]` therefore throws
`ReferenceError: chunkPaths is not defined` before `cleanupFiles` is entered.
Per ECMAScript semantics an exception raised in a `finally` block replaces
the pending completion (the `return` or any earlier exception), but it does
not retract side effects already performed inside the `try`: in a completed
chunked run the return expression `res.status(200).json({...})` has already
synchronously sent the 200 success payload (with the full transcript) to the
caller before the `finally` runs, so the caller keeps that 200; the
ReferenceError then routes control to the outer catch, which unlinks the
uploaded temp file and attempts `rmdir` on the (non-empty) chunk directory,
but its `res.status(500).json(...)` cannot be delivered (headers already
sent) and is only logged by the framework.  Only when the chunk-creation
step itself throws — so no response has been sent yet — does the
ReferenceError supersede the ffmpeg error and the caller receive
`500 {error: 'Transcription failed', details: 'chunkPaths is not defined'}`.
In both cases the chunk files are never deleted.  The model encodes exactly
this: the response component of each branch is the response the caller
actually receives.
-/

namespace AC

/-- `MAX_FILE_SIZE = 25 * 1024 * 1024` (both endpoints). -/
def MAX_FILE_SIZE : ℕ := 26214400

/-- Upload hard cap in `transcribe.js`: `MAX_FILE_SIZE * 4` (also the
formidable `maxFileSize` option, `100 * 1024 * 1024`). -/
def UPLOAD_CAP : ℕ := 104857600

/-- `transcribe.js` chunk length passed to `splitAudioIntoChunksByDuration`:
`9 * 60` seconds. -/
def CHUNK_SECONDS : ℚ := 540

/-- `history.js` `MAX_DURATION = 5 * 60` seconds. -/
def H_MAX_DURATION : ℚ := 300

/-- `history.js` `CHUNK_DURATION = 4.5 * 60` seconds. -/
def H_CHUNK_DURATION : ℚ := 270

/-- `Math.ceil(duration / chunkDuration)`, the number of chunks computed by
both `splitAudioIntoChunksByDuration` (transcribe.js line 173) and
`splitAudioIntoChunks` (history.js line 128). -/
def numChunks (duration chunkDur : ℚ) : ℕ := (Int.ceil (duration / chunkDur)).toNat

/-- The time ranges of the segmentation plan.  `history.js` lines 133-134
compute exactly `startTime = i * CHUNK_DURATION` and
`endTime = Math.min((i + 1) * CHUNK_DURATION, duration)` and cut the range
`[startTime, endTime)` out of the source file.  `transcribe.js` lines
181-185 request `setStartTime(i * chunkDurationSec)` with duration
`chunkDurationSec`; since ffmpeg stops at the end of the media, the
extracted range is likewise `[i*C, min((i+1)*C, duration))`. -/
def splitAudioIntoChunksPlan (duration chunkDur : ℚ) : List (ℚ × ℚ) :=
  (List.range (numChunks duration chunkDur)).map
    (fun (i : ℕ) => ((i : ℚ) * chunkDur, min (((i : ℚ) + 1) * chunkDur) duration))

/-- The conjunction of plan invariants claimed for the segmentation plan:
segment count is `ceil(D/C)`, segment `i` starts at `i*C`, consecutive
segments abut, every segment is non-degenerate and ends at most at `D`, and
a non-empty plan starts at `0` and ends exactly at `D`. -/
def SplitPlanSpec (D C : ℚ) : Prop :=
  (splitAudioIntoChunksPlan D C).length = numChunks D C
  ∧ ((numChunks D C : ℤ) = Int.ceil (D / C))
  ∧ (∀ i, ∀ h : i < (splitAudioIntoChunksPlan D C).length,
      ((splitAudioIntoChunksPlan D C)[i]).1 = (i : ℚ) * C)
  ∧ (∀ i, ∀ h : i + 1 < (splitAudioIntoChunksPlan D C).length,
      ((splitAudioIntoChunksPlan D C)[i]).2 =
        ((splitAudioIntoChunksPlan D C)[i + 1]).1)
  ∧ (∀ i, ∀ h : i < (splitAudioIntoChunksPlan D C).length,
      ((splitAudioIntoChunksPlan D C)[i]).1 <
          ((splitAudioIntoChunksPlan D C)[i]).2
        ∧ ((splitAudioIntoChunksPlan D C)[i]).2 ≤ D)
  ∧ (∀ h : 0 < (splitAudioIntoChunksPlan D C).length,
      ((splitAudioIntoChunksPlan D C)[0]).1 = 0
      ∧ ((splitAudioIntoChunksPlan D C)[(splitAudioIntoChunksPlan D C).length - 1]).2 = D)

/-- C2: the segmentation plan has `ceil(D/C)` segments, each starting at
`i*C`, contiguous, non-degenerate, ending at most at `D`, starting at `0`
and ending exactly at `D`. -/
theorem splitPlan_correct (D C : ℚ) (hD : 0 ≤ D) (hC : 0 < C) :
    SplitPlanSpec D C := by
  have hlen : (splitAudioIntoChunksPlan D C).length = numChunks D C := by
    simp only [splitAudioIntoChunksPlan, List.length_map, List.length_range]
  have hceil0 : (0 : ℤ) ≤ Int.ceil (D / C) := by
    have : (0 : ℚ) ≤ D / C := div_nonneg hD hC.le
    exact Int.ceil_nonneg this
  have hcast : ((numChunks D C : ℤ)) = Int.ceil (D / C) := by
    simp [numChunks, Int.toNat_of_nonneg hceil0]
  -- a generic description of the i-th entry
  have hget : ∀ i, ∀ h : i < (splitAudioIntoChunksPlan D C).length,
      (splitAudioIntoChunksPlan D C)[i] =
        ((i : ℚ) * C, min (((i : ℚ) + 1) * C) D) := by
    intro i h
    simp only [splitAudioIntoChunksPlan, List.getElem_map, List.getElem_range]
  -- i < numChunks implies i*C < D
  have hlow : ∀ i : ℕ, i < numChunks D C → (i : ℚ) * C < D := by
    intro i hi
    have hi' : (i : ℤ) < Int.ceil (D / C) := by
      rw [← hcast]; exact_mod_cast hi
    have : (i : ℚ) < D / C := by exact_mod_cast Int.lt_ceil.mp hi'
    calc (i : ℚ) * C < (D / C) * C := by
          exact mul_lt_mul_of_pos_right this hC
      _ = D := by field_simp
  -- numChunks * C ≥ D
  have hhigh : D ≤ (numChunks D C : ℚ) * C := by
    have h1 : D / C ≤ ((numChunks D C : ℤ) : ℚ) := by
      rw [hcast]; exact_mod_cast Int.le_ceil (D / C)
    calc D = (D / C) * C := by field_simp
      _ ≤ (numChunks D C : ℚ) * C := mul_le_mul_of_nonneg_right h1 hC.le
  refine ⟨hlen, hcast, ?_, ?_, ?_, ?_⟩
  · intro i h; rw [hget i h]
  · intro i h
    have hi1 : i + 1 < numChunks D C := by rw [← hlen]; exact h
    rw [hget i (Nat.lt_of_succ_lt h), hget (i + 1) h]
    dsimp only
    have hlt : ((i : ℚ) + 1) * C < D := by
      have := hlow (i + 1) hi1
      push_cast at this
      linarith
    rw [min_eq_left hlt.le]
    push_cast
    ring
  · intro i h
    have hi : i < numChunks D C := by rw [← hlen]; exact h
    rw [hget i h]
    dsimp only
    constructor
    · apply lt_min
      · nlinarith [hC]
      · exact hlow i hi
    · exact min_le_right _ _
  · intro h
    have hn : 0 < numChunks D C := by rw [← hlen]; exact h
    constructor
    · rw [hget 0 h]; dsimp only; norm_num
    · have hl : (splitAudioIntoChunksPlan D C).length - 1 <
          (splitAudioIntoChunksPlan D C).length := Nat.sub_lt h Nat.one_pos
      rw [hget _ hl]
      dsimp only
      rw [hlen]
      have hcastlast : ((numChunks D C - 1 : ℕ) : ℚ) + 1 = (numChunks D C : ℚ) := by
        have h1 : (1 : ℕ) ≤ numChunks D C := hn
        push_cast [Nat.cast_sub h1]
        ring
      rw [hcastlast]
      exact min_eq_right hhigh

/-- C2 witness: the plan for a 10-second file with 3-second chunks. -/
theorem splitPlan_correct_witness :
    (0 : ℚ) ≤ 10 ∧ (0 : ℚ) < 3 ∧ SplitPlanSpec 10 3 :=
  ⟨by norm_num, by norm_num, splitPlan_correct 10 3 (by norm_num) (by norm_num)⟩


/-- Identities of the files and the directory a pipeline run touches.
`upload`/`compressed`/`chunk i` belong to `transcribe.js` (the uploaded temp
file, the `compressed_*.mp3`, the `chunk_i_*.mp3`); `hUpload`/`hChunk i`/
`hDir` belong to `history.js` (the uploaded temp file, `chunk_i.wav`, the
`chunks_*` temp directory).  Real paths carry `Date.now()` stamps; identity
by role and index is what matters to the claims. -/
inductive FileRef
  | upload
  | compressed
  | chunk (i : ℕ)
  | hUpload
  | hChunk (i : ℕ)
  | hDir
  deriving DecidableEq

/-- Observable events of a run, in program order: file-system effects,
ffmpeg compression, provider calls (with the prompt actually placed in the
request: `prompt || undefined` in `transcribeAudio`, no prompt field at all
in `history.js`'s `transcribeFile`), SSE messages, the Supabase insert
attempt, and `res.end()`. -/
inductive Ev
  | createFile (f : FileRef)
  | unlinkF (f : FileRef)
  | mkdirEv (f : FileRef)
  | rmdirEv (f : FileRef)
  | compressEv
  | provCall (f : FileRef) (prompt : Option String)
  | sseProgress (p : ℚ) (msg : String)
  | sseError (msg : String)
  | sseFinal (p : ℚ) (transcript : String)
  | sseDone
  | saveAttempt (filename : String) (transcript : String)
  | resEnd
  deriving DecidableEq

/-- `transcribeAudio`'s request sets `prompt: prompt || undefined`: the
empty string is not sent. -/
def promptOf (s : String) : Option String := if s = "" then none else some s

/-- Oracle environment for the `transcribe.js` handler: outcomes of the
external collaborators, in the order the handler consults them. -/
structure TEnv where
  /-- `form.parse`: an error, or the optional uploaded file's on-disk size
  (`fs.statSync(uploadedFile.filepath).size`); `none` = no file field. -/
  parseResult : Except String (Option ℕ)
  /-- ffmpeg re-encode to 64kbit mono 16kHz mp3: error, or the compressed
  file's size (`fs.statSync(processedFilePath).size` after compression). -/
  compressOutcome : Except String ℕ
  /-- `ffmpeg.ffprobe` inside `splitAudioIntoChunksByDuration`:
  `metadata.format.duration`. -/
  probeOutcome : Except String ℚ
  /-- per-chunk ffmpeg materialization: `some e` = the chunk-writing ffmpeg
  run for chunk `i` emits `error e`. -/
  chunkCreate : ℕ → Option String
  /-- provider response for chunk `i` given the `prevText` argument. -/
  chunkProv : ℕ → String → Except String String
  /-- provider response for the whole processed file (direct mode). -/
  directProv : Except String String

/-- `60 + (i / chunks.length) * 30`, the per-chunk progress value
(transcribe.js line 116). -/
def chunkProgress (i n : ℕ) : ℚ := 60 + ((i : ℚ) / (n : ℚ)) * 30

/-- The chunk-materialization loop of `splitAudioIntoChunksByDuration`
(transcribe.js lines 176-198): writes `chunk_i.mp3` files in order; an
ffmpeg error rejects the whole promise.  Returns the creation events and
the error, if any. -/
def transcribeSplitLoop (chunkCreate : ℕ → Option String) :
    List ℕ → List Ev × Option String
  | [] => ([], none)
  | i :: rest =>
      match chunkCreate i with
      | some e => ([], some e)
      | none =>
          let r := transcribeSplitLoop chunkCreate rest
          (Ev.createFile (.chunk i) :: r.1, r.2)

/-- The sequential chunk-transcription loop (transcribe.js lines 112-123):
for each chunk, emit the progress message, call the provider with the
current `prevText`, and on success append `chunkTranscript + ' '` to the
transcript, set `prevText = chunkTranscript.slice(-1000)` and
`fs.unlinkSync` the chunk file.  On failure, `transcribeAudio` throws
`'Failed to transcribe audio: ' + message`, aborting the loop. -/
def transcribeChunkLoop (prov : ℕ → String → Except String String) (n : ℕ) :
    List ℕ → String → String → List Ev × Except String String
  | [], transcript, _ => ([], .ok transcript)
  | i :: rest, transcript, prevText =>
      let pEv := Ev.sseProgress (chunkProgress i n)
        ("Processing chunk " ++ toString (i + 1) ++ "/" ++ toString n)
      match prov i prevText with
      | .error e =>
          ([pEv, Ev.provCall (.chunk i) (promptOf prevText)],
           .error ("Failed to transcribe audio: " ++ e))
      | .ok t =>
          let r := transcribeChunkLoop prov n rest (transcript ++ t ++ " ")
            (t.takeRight 1000)
          (pEv :: Ev.provCall (.chunk i) (promptOf prevText) ::
            Ev.unlinkF (.chunk i) :: r.1, r.2)

/-- The per-chunk provider outputs of a fully successful run of the loop:
`some ts` iff every chunk call succeeds, threading the
`prevText = previous.takeRight 1000` context exactly as the loop does. -/
def transcribeChunkTexts (prov : ℕ → String → Except String String) :
    List ℕ → String → Option (List String)
  | [], _ => some []
  | i :: rest, prevText =>
      match prov i prevText with
      | .error _ => none
      | .ok t => (transcribeChunkTexts prov rest (t.takeRight 1000)).map
          (fun ts => t :: ts)

/-- The tail of a successful run (transcribe.js lines 129-143): progress 95,
unlink of the compressed file when one was produced, unlink of the upload,
the final SSE message carrying `transcript.trim()`, `'[DONE]'`, and the
`finally` `res.end()`. -/
def transcribeFinish (compressed : Bool) (transcript : String) : List Ev :=
  Ev.sseProgress 95 "Finalizing transcript..." ::
    (if compressed then [Ev.unlinkF .compressed] else []) ++
      [Ev.unlinkF .upload, Ev.sseFinal 100 transcript.trim, Ev.sseDone, Ev.resEnd]

/-- transcribe.js lines 104-143: the branch on `processedFileSize`, given
the events so far, whether compression produced a new file, and the
processed file's identity/size.  A thrown error reaches the catch (line
145-147), which emits the error message over SSE; `finally` ends the
response. -/
def transcribeProcessed (env : TEnv) (evs : List Ev) (compressed : Bool)
    (processed : FileRef) (processedSize : ℕ) : List Ev :=
  if MAX_FILE_SIZE < processedSize then
    let evs50 := evs ++ [Ev.sseProgress 50 "Splitting into 9-minute chunks..."]
    match env.probeOutcome with
    | .error e => evs50 ++ [Ev.sseError e, Ev.resEnd]
    | .ok duration =>
        let n := numChunks duration CHUNK_SECONDS
        let s := transcribeSplitLoop env.chunkCreate (List.range n)
        match s.2 with
        | some e => evs50 ++ s.1 ++ [Ev.sseError e, Ev.resEnd]
        | none =>
            let evs60 := evs50 ++ s.1 ++
              [Ev.sseProgress 60 ("Processing " ++ toString n ++ " chunks...")]
            let l := transcribeChunkLoop env.chunkProv n (List.range n) "" ""
            match l.2 with
            | .error e => evs60 ++ l.1 ++ [Ev.sseError e, Ev.resEnd]
            | .ok transcript => evs60 ++ l.1 ++ transcribeFinish compressed transcript
  else
    let evs70 := evs ++ [Ev.sseProgress 70 "Transcribing audio...",
      Ev.provCall processed (promptOf "")]
    match env.directProv with
    | .error e => evs70 ++ [Ev.sseError ("Failed to transcribe audio: " ++ e), Ev.resEnd]
    | .ok t => evs70 ++ transcribeFinish compressed t

/-- The `transcribe.js` handler (first variant, lines 37-151) as a trace of
observable events.  Early `return`s call `res.end()` themselves and then
run the `finally` `res.end()` again; a thrown error is caught at line 145
and reported as an SSE error message. -/
def transcribeHandler (env : TEnv) : List Ev :=
  match env.parseResult with
  | .error e => [Ev.sseError e, Ev.resEnd]
  | .ok none => [Ev.sseError "No file uploaded", Ev.resEnd, Ev.resEnd]
  | .ok (some fileSize) =>
      let evs0 := [Ev.createFile .upload,
        Ev.sseProgress 10 "File uploaded successfully"]
      if UPLOAD_CAP < fileSize then
        evs0 ++ [Ev.sseError "File too large (max 100MB)", Ev.resEnd, Ev.resEnd]
      else
        let evs1 := evs0 ++ [Ev.sseProgress 20 "Processing audio file..."]
        if MAX_FILE_SIZE < fileSize then
          match env.compressOutcome with
          | .error e => evs1 ++ [Ev.compressEv, Ev.sseError e, Ev.resEnd]
          | .ok csz =>
              transcribeProcessed env
                (evs1 ++ [Ev.compressEv, Ev.createFile .compressed,
                  Ev.sseProgress 40 "Audio compressed"])
                true .compressed csz
        else
          transcribeProcessed env evs1 false .upload fileSize

/-- The progress percentages a trace emits, in order (`progress:` fields of
the SSE messages, including the final message's `progress: 100`). -/
def progressValues (evs : List Ev) : List ℚ :=
  evs.filterMap fun e =>
    match e with
    | .sseProgress p _ => some p
    | .sseFinal p _ => some p
    | _ => none

/-- The provider calls a trace makes, in order. -/
def providerCalls (evs : List Ev) : List FileRef :=
  evs.filterMap fun e =>
    match e with
    | .provCall f _ => some f
    | _ => none

/-- The transcripts of the final SSE result messages a trace emits (a run
emits one on success and none on failure). -/
def finalTranscripts (evs : List Ev) : List String :=
  evs.filterMap fun e =>
    match e with
    | .sseFinal _ t => some t
    | _ => none

/-- Recognizes file-deletion attempts. -/
def isUnlinkEv : Ev → Bool
  | .unlinkF _ => true
  | _ => false


/-- Oracle environment for the `history.js` handler (second variant). -/
structure HEnv where
  /-- Is `process.env.OPENAI_API_KEY` set? -/
  apiKey : Bool
  /-- `form.parse`: an error, or the optional audio file as
  `(originalFilename, audioFile.size)`; `none` = no `audio` field. -/
  parseResult : Except String (Option (String × ℕ))
  /-- `getAudioInfo` (ffprobe): error, or
  `(metadata.format.duration || 0, metadata.format.size || 0)`. -/
  probeOutcome : Except String (ℚ × ℕ)
  /-- per-chunk ffmpeg materialization in `splitAudioIntoChunks`:
  `some e` = ffmpeg reports error `e` for chunk `i`. -/
  hChunkCreate : ℕ → Option String
  /-- provider response for chunk `i`'s WAV file (`transcribeFile` takes no
  prompt argument). -/
  hProv : ℕ → Except String String
  /-- provider response for the uploaded file in direct mode. -/
  hDirectProv : Except String String
  /-- the Supabase insert in `saveTranscription`. -/
  saveOutcome : Except String Unit

/-- The JSON response of the `history.js` handler. -/
inductive HResp
  | success (transcription : String) (duration : ℚ) (size : ℕ)
      (chunks : Option (List String))
  | failure (status : ℕ) (err : String) (details : Option String)
  deriving DecidableEq

/-- A failed chunk's slot text (history.js line 324), around the message of
the error `transcribeFile` throws (line 116). -/
def chunkPlaceholder (e : String) : String :=
  "[Error transcribing this chunk: " ++ e ++ "]"

/-- The text entering slot `i` of `transcriptions` (history.js lines
310-326): the chunk's transcription, or the placeholder built from the
wrapped error message. -/
def historyChunkResult (hProv : ℕ → Except String String) (i : ℕ) : String :=
  match hProv i with
  | .ok t => t
  | .error e => chunkPlaceholder ("Failed to transcribe file: " ++ e)

/-- The chunk-materialization loop of `splitAudioIntoChunks` (history.js
lines 131-156): writes `chunk_i.wav` files in order; an ffmpeg error
rejects, aborting the loop. -/
def historySplitLoop (hChunkCreate : ℕ → Option String) :
    List ℕ → List Ev × Option String
  | [] => ([], none)
  | i :: rest =>
      match hChunkCreate i with
      | some e => ([], some ("FFmpeg error for chunk " ++ toString i ++ ": " ++ e))
      | none =>
          let r := historySplitLoop hChunkCreate rest
          (Ev.createFile (.hChunk i) :: r.1, r.2)

/-- The sequential chunk-transcription loop (history.js lines 307-327):
each chunk is sent to the provider with no prompt; a failure is absorbed
into a placeholder slot, never aborting the loop.  Returns the provider-call
events and the ordered slot texts. -/
def historyChunkLoop (hProv : ℕ → Except String String) :
    List ℕ → List Ev × List String
  | [] => ([], [])
  | i :: rest =>
      let r := historyChunkLoop hProv rest
      (Ev.provCall (.hChunk i) none :: r.1,
       historyChunkResult hProv i :: r.2)

/-- The `history.js` handler (second variant, lines 222-373) as a trace of
observable events plus its JSON response.  Direct branch iff
`actualSize <= MAX_FILE_SIZE && duration <= MAX_DURATION` where
`actualSize = size || fileSize` (lines 256-264).

In the chunked branch, the inner `finally`
(`await cleanupFiles([tempFilePath, ...chunkPaths], tempDir)`, line 353)
reads `chunkPaths`, a `const` that is block-scoped to the `try` block and
not in scope in the `finally` block, so the `finally` itself throws
`ReferenceError: chunkPaths is not defined` before any deletion.  When the
chunk loop completed, `return res.status(200).json({...})` (line 343) has
already sent the 200 success payload before the `finally` runs, so that is
the response the caller receives; the ReferenceError only diverts control
to the outer catch (lines 357-371), which unlinks the uploaded temp file
and attempts `rmdir` on the chunk directory, its own 500 being undeliverable
(headers already sent).  When chunk creation itself threw, no response had
been sent, so the ReferenceError supersedes the ffmpeg error and the catch's
500 with detail `chunkPaths is not defined` is delivered.  Chunk files are
never deleted in either case.  The response component below is always the
response the caller actually receives. -/
def historyHandler (env : HEnv) : List Ev × HResp :=
  if env.apiKey = false then
    ([], .failure 500 "OpenAI API key not configured" none)
  else
    match env.parseResult with
    | .error e => ([], .failure 500 "Transcription failed" (some e))
    | .ok none =>
        ([], .failure 400 "No audio file uploaded. Please provide an audio file." none)
    | .ok (some (originalName, fileSize)) =>
        let evs0 := [Ev.createFile .hUpload]
        match env.probeOutcome with
        | .error e =>
            (evs0 ++ [Ev.unlinkF .hUpload],
             .failure 500 "Transcription failed" (some e))
        | .ok (duration, psize) =>
            let actualSize := if psize = 0 then fileSize else psize
            if actualSize ≤ MAX_FILE_SIZE ∧ duration ≤ H_MAX_DURATION then
              -- direct transcription; `finally` unlinks the temp file,
              -- and on a throw the outer catch unlinks it again
              match env.hDirectProv with
              | .ok tx =>
                  (evs0 ++ [Ev.provCall .hUpload none,
                    Ev.saveAttempt originalName tx, Ev.unlinkF .hUpload],
                   .success tx duration actualSize none)
              | .error e =>
                  (evs0 ++ [Ev.provCall .hUpload none, Ev.unlinkF .hUpload,
                    Ev.unlinkF .hUpload],
                   .failure 500 "Transcription failed"
                     (some ("Failed to transcribe file: " ++ e)))
            else
              -- chunked transcription
              let n := numChunks duration H_CHUNK_DURATION
              let s := historySplitLoop env.hChunkCreate (List.range n)
              match s.2 with
              | some _ =>
                  -- the chunk-creation error is superseded by the
                  -- ReferenceError thrown by the finally block
                  (evs0 ++ Ev.mkdirEv .hDir :: s.1 ++
                     [Ev.unlinkF .hUpload, Ev.rmdirEv .hDir],
                   .failure 500 "Transcription failed"
                     (some "chunkPaths is not defined"))
              | none =>
                  let l := historyChunkLoop env.hProv (List.range n)
                  let fullT := String.intercalate " " l.2
                  -- the 200 success JSON is sent at line 343, before the
                  -- finally's ReferenceError; the catch's later 500 cannot
                  -- be delivered (headers already sent)
                  (evs0 ++ Ev.mkdirEv .hDir :: s.1 ++ l.1 ++
                     [Ev.saveAttempt originalName fullT,
                      Ev.unlinkF .hUpload, Ev.rmdirEv .hDir],
                   .success fullT duration actualSize (some l.2))

/-! ### Helper lemmas about the model -/

/-- Characterization of `numChunks` by the two rational inequalities that
pin down the ceiling. -/
lemma numChunks_eq (D C : ℚ) (n : ℕ) (hC : 0 < C) (hub : D ≤ (n : ℚ) * C)
    (hlb : ((n : ℚ) - 1) * C < D) : numChunks D C = n := by
  have h : Int.ceil (D / C) = (n : ℤ) := by
    rw [Int.ceil_eq_iff]
    refine ⟨?_, ?_⟩
    · push_cast
      exact (lt_div_iff₀ hC).mpr hlb
    · push_cast
      exact (div_le_iff₀ hC).mpr hub
  simp [numChunks, h]

/-- Every event of the transcribe.js chunk-materialization loop is the
creation of a chunk file with index in the processed list. -/
lemma transcribeSplitLoop_events_mem (c : ℕ → Option String) :
    ∀ l, ∀ e ∈ (transcribeSplitLoop c l).1, ∃ i, i ∈ l ∧ e = Ev.createFile (.chunk i) := by
  intro l
  induction l with
  | nil => intro e he; simp [transcribeSplitLoop] at he
  | cons i rest ih =>
      intro e he
      cases hc : c i with
      | some err => simp [transcribeSplitLoop, hc] at he
      | none =>
          simp only [transcribeSplitLoop, hc, List.mem_cons] at he
          rcases he with rfl | he
          · exact ⟨i, by simp⟩
          · obtain ⟨j, hj, rfl⟩ := ih e he
            exact ⟨j, by simp [hj]⟩

/-- Every event of the transcribe.js chunk-transcription loop is a
per-chunk progress message, a provider call on a chunk file, or the unlink
of a chunk file, with index in the processed list. -/
lemma transcribeChunkLoop_events_mem (prov : ℕ → String → Except String String) (n : ℕ) :
    ∀ l tr pv, ∀ e ∈ (transcribeChunkLoop prov n l tr pv).1,
      (∃ i m, i ∈ l ∧ e = Ev.sseProgress (chunkProgress i n) m)
      ∨ (∃ i p, i ∈ l ∧ e = Ev.provCall (.chunk i) p)
      ∨ (∃ i, i ∈ l ∧ e = Ev.unlinkF (.chunk i)) := by
  intro l
  induction l with
  | nil => intro tr pv e he; simp [transcribeChunkLoop] at he
  | cons i rest ih =>
      intro tr pv e he
      cases hp : prov i pv with
      | error err =>
          simp only [transcribeChunkLoop, hp, List.mem_cons, List.not_mem_nil,
            or_false] at he
          rcases he with rfl | rfl
          · exact .inl ⟨i, _, by simp, rfl⟩
          · exact .inr (.inl ⟨i, _, by simp, rfl⟩)
      | ok t =>
          simp only [transcribeChunkLoop, hp, List.mem_cons] at he
          rcases he with rfl | rfl | rfl | he
          · exact .inl ⟨i, _, by simp, rfl⟩
          · exact .inr (.inl ⟨i, _, by simp, rfl⟩)
          · exact .inr (.inr ⟨i, by simp, rfl⟩)
          · rcases ih _ _ e he with ⟨j, m, hj, rfl⟩ | ⟨j, p, hj, rfl⟩ | ⟨j, hj, rfl⟩
            · exact .inl ⟨j, m, by simp [hj], rfl⟩
            · exact .inr (.inl ⟨j, p, by simp [hj], rfl⟩)
            · exact .inr (.inr ⟨j, by simp [hj], rfl⟩)

lemma chunkProgress_ge (i n : ℕ) : 60 ≤ chunkProgress i n := by
  have h : (0 : ℚ) ≤ ((i : ℚ) / (n : ℚ)) * 30 := by positivity
  simp only [chunkProgress]
  linarith

lemma chunkProgress_le (i n : ℕ) (h : i ≤ n) : chunkProgress i n ≤ 90 := by
  rcases Nat.eq_zero_or_pos n with hn | hn
  · simp [chunkProgress, hn]; norm_num
  · have hn' : (0 : ℚ) < (n : ℚ) := by exact_mod_cast hn
    have h1 : (i : ℚ) / (n : ℚ) ≤ 1 := by
      rw [div_le_one hn']
      exact_mod_cast h
    simp only [chunkProgress]
    linarith

lemma chunkProgress_ne_fifty (i n : ℕ) : chunkProgress i n ≠ 50 := by
  have := chunkProgress_ge i n
  intro h
  rw [h] at this
  norm_num at this

lemma chunkProgress_mono (i j n : ℕ) (hij : i ≤ j) :
    chunkProgress i n ≤ chunkProgress j n := by
  rcases Nat.eq_zero_or_pos n with hn | hn
  · simp [chunkProgress, hn]
  · have hn' : (0 : ℚ) < (n : ℚ) := by exact_mod_cast hn
    have h1 : (i : ℚ) / (n : ℚ) ≤ (j : ℚ) / (n : ℚ) := by
      have hij' : (i : ℚ) ≤ (j : ℚ) := by exact_mod_cast hij
      exact div_le_div_of_nonneg_right hij' hn'.le
    simp only [chunkProgress]
    linarith

/-- The progress values the chunk loop emits form the image of a prefix of
its index list under `chunkProgress`. -/
lemma transcribeChunkLoop_progress (prov : ℕ → String → Except String String) (n : ℕ) :
    ∀ l tr pv, ∃ m, progressValues (transcribeChunkLoop prov n l tr pv).1 =
      (l.take m).map (fun i => chunkProgress i n) := by
  intro l
  induction l with
  | nil => intro tr pv; exact ⟨0, by simp [transcribeChunkLoop, progressValues]⟩
  | cons i rest ih =>
      intro tr pv
      cases hp : prov i pv with
      | error err =>
          refine ⟨1, ?_⟩
          simp [transcribeChunkLoop, hp, progressValues]
      | ok t =>
          obtain ⟨m, hm⟩ := ih (tr ++ t ++ " ") (t.takeRight 1000)
          refine ⟨m + 1, ?_⟩
          simp [transcribeChunkLoop, hp, progressValues, List.filterMap_cons] at hm ⊢
          exact hm

lemma transcribeFinish_progress (b : Bool) (t : String) :
    progressValues (transcribeFinish b t) = [95, 100] := by
  cases b <;> simp [transcribeFinish, progressValues]

/-- The history.js chunk loop visits exactly its index list, in order, with
no prompt, and produces the slot texts in the same order. -/
lemma historyChunkLoop_eq (p : ℕ → Except String String) :
    ∀ l, historyChunkLoop p l =
      (l.map fun i => Ev.provCall (.hChunk i) none, l.map (historyChunkResult p)) := by
  intro l
  induction l with
  | nil => simp [historyChunkLoop]
  | cons i rest ih => simp [historyChunkLoop, ih]

/-- When every chunk materialization succeeds, the history.js split loop
creates exactly the chunk files of its index list, in order. -/
lemma historySplitLoop_ok (c : ℕ → Option String) :
    ∀ l, (∀ i ∈ l, c i = none) →
      historySplitLoop c l = (l.map fun i => Ev.createFile (.hChunk i), none) := by
  intro l
  induction l with
  | nil => intro _; simp [historySplitLoop]
  | cons i rest ih =>
      intro h
      have hi : c i = none := h i (by simp)
      have hr := ih (fun j hj => h j (by simp [hj]))
      simp [historySplitLoop, hi, hr]

/-- Every event of the history.js split loop is the creation of a chunk
file with index in the processed list. -/
lemma historySplitLoop_events_mem (c : ℕ → Option String) :
    ∀ l, ∀ e ∈ (historySplitLoop c l).1, ∃ i, i ∈ l ∧ e = Ev.createFile (.hChunk i) := by
  intro l
  induction l with
  | nil => intro e he; simp [historySplitLoop] at he
  | cons i rest ih =>
      intro e he
      cases hc : c i with
      | some err => simp [historySplitLoop, hc] at he
      | none =>
          simp only [historySplitLoop, hc, List.mem_cons] at he
          rcases he with rfl | he
          · exact ⟨i, by simp⟩
          · obtain ⟨j, hj, rfl⟩ := ih e he
            exact ⟨j, by simp [hj]⟩

/-- The event trace of a fully successful run of the transcribe.js chunk
loop: for each chunk, in index order, the progress message, the provider
call carrying the current context, and the immediate unlink of that chunk
file — all before the next chunk is touched. -/
def transcribeLoopTrace (n : ℕ) : List ℕ → String → List String → List Ev
  | i :: l, pv, t :: ts =>
      Ev.sseProgress (chunkProgress i n)
          ("Processing chunk " ++ toString (i + 1) ++ "/" ++ toString n) ::
        Ev.provCall (.chunk i) (promptOf pv) ::
        Ev.unlinkF (.chunk i) ::
        transcribeLoopTrace n l (t.takeRight 1000) ts
  | _, _, _ => []

lemma transcribeChunkTexts_length (prov : ℕ → String → Except String String) :
    ∀ l pv ts, transcribeChunkTexts prov l pv = some ts → ts.length = l.length := by
  intro l
  induction l with
  | nil => intro pv ts h; simp [transcribeChunkTexts] at h; simp [← h]
  | cons i rest ih =>
      intro pv ts h
      cases hp : prov i pv with
      | error e => simp [transcribeChunkTexts, hp] at h
      | ok t =>
          cases hts : transcribeChunkTexts prov rest (t.takeRight 1000) with
          | none => simp [transcribeChunkTexts, hp, hts] at h
          | some ts2 =>
              simp [transcribeChunkTexts, hp, hts] at h
              subst h
              simp [ih _ _ hts]

/-- When every chunk call succeeds, the chunk loop produces exactly the
block trace and folds the texts, in index order, onto the accumulator. -/
lemma transcribeChunkLoop_of_texts (prov : ℕ → String → Except String String) (n : ℕ) :
    ∀ l tr pv ts, transcribeChunkTexts prov l pv = some ts →
      transcribeChunkLoop prov n l tr pv =
        (transcribeLoopTrace n l pv ts,
         .ok (ts.foldl (fun acc t => acc ++ t ++ " ") tr)) := by
  intro l
  induction l with
  | nil =>
      intro tr pv ts h
      simp only [transcribeChunkTexts] at h
      obtain rfl := Option.some.inj h
      simp [transcribeChunkLoop, transcribeLoopTrace]
  | cons i rest ih =>
      intro tr pv ts h
      cases hp : prov i pv with
      | error e => simp [transcribeChunkTexts, hp] at h
      | ok t =>
          cases hts : transcribeChunkTexts prov rest (t.takeRight 1000) with
          | none => simp [transcribeChunkTexts, hp, hts] at h
          | some ts2 =>
              simp [transcribeChunkTexts, hp, hts] at h
              subst h
              simp [transcribeChunkLoop, hp, transcribeLoopTrace,
                ih (tr ++ t ++ " ") (t.takeRight 1000) ts2 hts]

lemma providerCalls_loopTrace (n : ℕ) :
    ∀ l pv ts, ts.length = l.length →
      providerCalls (transcribeLoopTrace n l pv ts) =
        l.map (fun i => FileRef.chunk i) := by
  intro l
  induction l with
  | nil => intro pv ts h; simp [transcribeLoopTrace, providerCalls]
  | cons i rest ih =>
      intro pv ts h
      cases ts with
      | nil => simp at h
      | cons t ts2 =>
          simp only [List.length_cons, Nat.succ_inj] at h
          simp [transcribeLoopTrace, providerCalls, List.filterMap_cons] at ih ⊢
          exact ih _ _ h

lemma finalTranscripts_loopTrace (n : ℕ) :
    ∀ l pv ts, finalTranscripts (transcribeLoopTrace n l pv ts) = [] := by
  intro l
  induction l with
  | nil => intro pv ts; simp [transcribeLoopTrace, finalTranscripts]
  | cons i rest ih =>
      intro pv ts
      cases ts with
      | nil => simp [transcribeLoopTrace, finalTranscripts]
      | cons t ts2 =>
          simp [transcribeLoopTrace, finalTranscripts, List.filterMap_cons] at ih ⊢
          exact ih _ _

lemma foldl_str_append (l : List String) :
    ∀ a b : String, l.foldl (fun r s => r ++ s) (a ++ b) =
      a ++ l.foldl (fun r s => r ++ s) b := by
  induction l with
  | nil => intro a b; simp
  | cons c rest ih =>
      intro a b
      simp only [List.foldl_cons]
      rw [String.append_assoc, ih]

/-- The fold the loop performs is the index-ordered join of the chunk
texts, each followed by the `' '` separator the source appends. -/
lemma foldl_append_eq_join :
    ∀ (ts : List String) (tr : String),
      ts.foldl (fun acc t => acc ++ t ++ " ") tr =
        tr ++ String.join (ts.map (fun t => t ++ " ")) := by
  intro ts
  induction ts with
  | nil => intro tr; simp [String.join]
  | cons t rest ih =>
      intro tr
      simp only [List.foldl_cons, List.map_cons]
      rw [ih]
      have h2 : String.join ((t ++ " ") :: rest.map (fun x => x ++ " ")) =
          (t ++ " ") ++ String.join (rest.map (fun x => x ++ " ")) := by
        simp only [String.join, List.foldl_cons]
        have := foldl_str_append (rest.map (fun x => x ++ " ")) (t ++ " ") ""
        simpa using this
      rw [h2, ← String.append_assoc, ← String.append_assoc]
lemma compress_notin_splitA (c : ℕ → Option String) (l : List ℕ) :
    Ev.compressEv ∉ (transcribeSplitLoop c l).1 := by
  intro h
  obtain ⟨i, _, heq⟩ := transcribeSplitLoop_events_mem c l _ h
  simp at heq

lemma compress_notin_loopA (prov : ℕ → String → Except String String)
    (n : ℕ) (l : List ℕ) (tr pv : String) :
    Ev.compressEv ∉ (transcribeChunkLoop prov n l tr pv).1 := by
  intro h
  rcases transcribeChunkLoop_events_mem prov n l tr pv _ h with
    ⟨i, m, _, heq⟩ | ⟨i, p, _, heq⟩ | ⟨i, _, heq⟩ <;> simp at heq

lemma compress_notin_finish (b : Bool) (t : String) :
    Ev.compressEv ∉ transcribeFinish b t := by
  cases b <;> simp [transcribeFinish]

lemma prog50_notin_splitA (c : ℕ → Option String) (l : List ℕ) (m : String) :
    Ev.sseProgress 50 m ∉ (transcribeSplitLoop c l).1 := by
  intro h
  obtain ⟨i, _, heq⟩ := transcribeSplitLoop_events_mem c l _ h
  simp at heq

lemma prog50_notin_loopA (prov : ℕ → String → Except String String)
    (n : ℕ) (l : List ℕ) (tr pv : String) (m : String) :
    Ev.sseProgress 50 m ∉ (transcribeChunkLoop prov n l tr pv).1 := by
  intro h
  rcases transcribeChunkLoop_events_mem prov n l tr pv _ h with
    ⟨i, m2, _, heq⟩ | ⟨i, p, _, heq⟩ | ⟨i, _, heq⟩
  · have : chunkProgress i n = 50 := by
      have := heq
      simp only [Ev.sseProgress.injEq] at this
      exact this.1.symm
    exact chunkProgress_ne_fifty i n this
  · simp at heq
  · simp at heq

lemma prog50_notin_finish (b : Bool) (t : String) (m : String) :
    Ev.sseProgress 50 m ∉ transcribeFinish b t := by
  cases b <;> simp [transcribeFinish]

/-- `transcribeProcessed` appends events after the prefix it is given; the
tail contains no compression event, and contains the
"Splitting into 9-minute chunks..." progress message iff the processed file
still exceeds `MAX_FILE_SIZE`. -/
lemma transcribeProcessed_shape (env : TEnv) (evs : List Ev) (c : Bool)
    (p : FileRef) (s : ℕ) :
    ∃ tail, transcribeProcessed env evs c p s = evs ++ tail
      ∧ Ev.compressEv ∉ tail
      ∧ ((Ev.sseProgress 50 "Splitting into 9-minute chunks..." ∈ tail) ↔
          MAX_FILE_SIZE < s) := by
  by_cases hs : MAX_FILE_SIZE < s
  · rw [transcribeProcessed, if_pos hs]
    cases hpr : env.probeOutcome with
    | error e =>
        refine ⟨[Ev.sseProgress 50 "Splitting into 9-minute chunks...",
          Ev.sseError e, Ev.resEnd], by simp, by simp, by simp [hs]⟩
    | ok duration =>
        cases hsp2 : (transcribeSplitLoop env.chunkCreate
            (List.range (numChunks duration CHUNK_SECONDS))).2 with
        | some e =>
            refine ⟨Ev.sseProgress 50 "Splitting into 9-minute chunks..." ::
              ((transcribeSplitLoop env.chunkCreate
                  (List.range (numChunks duration CHUNK_SECONDS))).1 ++
                [Ev.sseError e, Ev.resEnd]), ?_, ?_, by simp [hs]⟩
            · simp only [hsp2]
              simp [List.append_assoc]
            · simp only [List.mem_cons, List.mem_append]
              rintro (heq | h | h)
              · simp at heq
              · exact compress_notin_splitA _ _ h
              · simp at h
        | none =>
            cases hlp2 : (transcribeChunkLoop env.chunkProv
                (numChunks duration CHUNK_SECONDS)
                (List.range (numChunks duration CHUNK_SECONDS)) "" "").2 with
            | error e =>
                refine ⟨Ev.sseProgress 50 "Splitting into 9-minute chunks..." ::
                  ((transcribeSplitLoop env.chunkCreate
                      (List.range (numChunks duration CHUNK_SECONDS))).1 ++
                    Ev.sseProgress 60 ("Processing " ++
                        toString (numChunks duration CHUNK_SECONDS) ++ " chunks...") ::
                      ((transcribeChunkLoop env.chunkProv
                          (numChunks duration CHUNK_SECONDS)
                          (List.range (numChunks duration CHUNK_SECONDS)) "" "").1 ++
                        [Ev.sseError e, Ev.resEnd])), ?_, ?_, by simp [hs]⟩
                · simp only [hsp2, hlp2]
                  simp [List.append_assoc]
                · simp only [List.mem_cons, List.mem_append]
                  rintro (heq | h | heq | h | h)
                  · simp at heq
                  · exact compress_notin_splitA _ _ h
                  · simp at heq
                  · exact compress_notin_loopA _ _ _ _ _ h
                  · simp at h
            | ok t =>
                refine ⟨Ev.sseProgress 50 "Splitting into 9-minute chunks..." ::
                  ((transcribeSplitLoop env.chunkCreate
                      (List.range (numChunks duration CHUNK_SECONDS))).1 ++
                    Ev.sseProgress 60 ("Processing " ++
                        toString (numChunks duration CHUNK_SECONDS) ++ " chunks...") ::
                      ((transcribeChunkLoop env.chunkProv
                          (numChunks duration CHUNK_SECONDS)
                          (List.range (numChunks duration CHUNK_SECONDS)) "" "").1 ++
                        transcribeFinish c t)), ?_, ?_, by simp [hs]⟩
                · simp only [hsp2, hlp2]
                  simp [List.append_assoc]
                · simp only [List.mem_cons, List.mem_append]
                  rintro (heq | h | heq | h | h)
                  · simp at heq
                  · exact compress_notin_splitA _ _ h
                  · simp at heq
                  · exact compress_notin_loopA _ _ _ _ _ h
                  · exact compress_notin_finish _ _ h
  · rw [transcribeProcessed, if_neg hs]
    cases hdp : env.directProv with
    | error e =>
        refine ⟨[Ev.sseProgress 70 "Transcribing audio...",
          Ev.provCall p (promptOf ""),
          Ev.sseError ("Failed to transcribe audio: " ++ e), Ev.resEnd],
          by simp, by simp, ?_⟩
        simp only [hs, iff_false, List.mem_cons]
        rintro (heq | heq | heq | heq | h)
        · simp only [Ev.sseProgress.injEq] at heq; norm_num at heq
        · simp at heq
        · simp at heq
        · simp at heq
        · simp at h
    | ok t =>
        refine ⟨Ev.sseProgress 70 "Transcribing audio..." ::
          Ev.provCall p (promptOf "") :: transcribeFinish c t, by simp, ?_, ?_⟩
        · simp only [List.mem_cons]
          rintro (heq | heq | h)
          · simp at heq
          · simp at heq
          · exact compress_notin_finish _ _ h
        · simp only [hs, iff_false, List.mem_cons]
          rintro (heq | heq | h)
          · simp only [Ev.sseProgress.injEq] at heq; norm_num at heq
          · simp at heq
          · exact prog50_notin_finish _ _ _ h
lemma progressValues_append (a b : List Ev) :
    progressValues (a ++ b) = progressValues a ++ progressValues b := by
  simp [progressValues, List.filterMap_append]

lemma progressValues_nil : progressValues [] = [] := rfl

lemma progressValues_cons (e : Ev) (l : List Ev) :
    progressValues (e :: l) =
      (match e with
       | .sseProgress p _ => p :: progressValues l
       | .sseFinal p _ => p :: progressValues l
       | _ => progressValues l) := by
  cases e <;> simp [progressValues, List.filterMap_cons]

lemma progressValues_splitA (c : ℕ → Option String) (l : List ℕ) :
    progressValues (transcribeSplitLoop c l).1 = [] := by
  rw [progressValues, List.filterMap_eq_nil_iff]
  intro e he
  obtain ⟨i, _, rfl⟩ := transcribeSplitLoop_events_mem c l e he
  rfl

/-- The progress values the chunk loop over `range n` emits are sorted and
lie in `[60, 90]`. -/
lemma loopA_progress_sorted (prov : ℕ → String → Except String String)
    (n : ℕ) (tr pv : String) :
    (progressValues (transcribeChunkLoop prov n (List.range n) tr pv).1).Pairwise (· ≤ ·)
    ∧ ∀ x ∈ progressValues (transcribeChunkLoop prov n (List.range n) tr pv).1,
        (60 : ℚ) ≤ x ∧ x ≤ 90 := by
  obtain ⟨m, hm⟩ := transcribeChunkLoop_progress prov n (List.range n) tr pv
  rw [hm, List.take_range]
  constructor
  · exact (List.pairwise_lt_range _).map _
      (fun a b hab => chunkProgress_mono a b n hab.le)
  · intro x hx
    simp only [List.mem_map, List.mem_range] at hx
    obtain ⟨i, hi, rfl⟩ := hx
    have hin : i < n := lt_of_lt_of_le hi (min_le_right m n)
    exact ⟨chunkProgress_ge i n, chunkProgress_le i n hin.le⟩

/-- `transcribeProcessed` appends, after the given prefix, progress values
that are sorted and lie in `[50, 100]`. -/
lemma transcribeProcessed_progress (env : TEnv) (evs : List Ev) (c : Bool)
    (p : FileRef) (s : ℕ) :
    ∃ ptail, progressValues (transcribeProcessed env evs c p s) =
        progressValues evs ++ ptail
      ∧ ptail.Pairwise (· ≤ ·)
      ∧ ∀ x ∈ ptail, (50 : ℚ) ≤ x ∧ x ≤ 100 := by
  have hblock : ∀ (P : List ℚ), P.Pairwise (· ≤ ·) →
      (∀ x ∈ P, (60 : ℚ) ≤ x ∧ x ≤ 90) → ∀ (tl : List ℚ),
      (tl = [] ∨ tl = [95, 100]) →
      (((50 : ℚ) :: 60 :: (P ++ tl)).Pairwise (· ≤ ·)
      ∧ ∀ x ∈ (50 : ℚ) :: 60 :: (P ++ tl), (50 : ℚ) ≤ x ∧ x ≤ 100) := by
    intro P hP hPb tl htl
    have htl1 : tl.Pairwise (· ≤ ·) := by
      rcases htl with rfl | rfl
      · simp
      · simp [List.pairwise_cons]
        norm_num
    have htlb : ∀ x ∈ tl, (95 : ℚ) ≤ x ∧ x ≤ 100 := by
      rcases htl with rfl | rfl
      · simp
      · intro x hx
        simp only [List.mem_cons, List.not_mem_nil, or_false] at hx
        rcases hx with rfl | rfl <;> norm_num
    have hmem : ∀ b, b ∈ P ++ tl → (60 : ℚ) ≤ b ∧ b ≤ 100 := by
      intro b hb
      rcases List.mem_append.mp hb with hb | hb
      · exact ⟨(hPb b hb).1, by linarith [(hPb b hb).2]⟩
      · exact ⟨by linarith [(htlb b hb).1], (htlb b hb).2⟩
    refine ⟨?_, ?_⟩
    · rw [List.pairwise_cons]
      refine ⟨?_, ?_⟩
      · intro b hb
        simp only [List.mem_cons] at hb
        rcases hb with rfl | hb
        · norm_num
        · linarith [(hmem b hb).1]
      · rw [List.pairwise_cons]
        refine ⟨fun b hb => by linarith [(hmem b hb).1], ?_⟩
        rw [List.pairwise_append]
        refine ⟨hP, htl1, fun a ha b hb => by
          linarith [(hPb a ha).2, (htlb b hb).1]⟩
    · intro x hx
      simp only [List.mem_cons] at hx
      rcases hx with rfl | rfl | hx
      · norm_num
      · norm_num
      · exact ⟨by linarith [(hmem x hx).1], (hmem x hx).2⟩
  by_cases hs : MAX_FILE_SIZE < s
  · rw [transcribeProcessed, if_pos hs]
    cases hpr : env.probeOutcome with
    | error e =>
        refine ⟨[50], ?_, by simp, ?_⟩
        · simp only [progressValues_append, progressValues_cons, progressValues_nil]
          try simp
        · intro x hx
          simp only [List.mem_cons, List.not_mem_nil, or_false] at hx
          rw [hx]; norm_num
    | ok duration =>
        cases hsp2 : (transcribeSplitLoop env.chunkCreate
            (List.range (numChunks duration CHUNK_SECONDS))).2 with
        | some e =>
            refine ⟨[50], ?_, by simp, ?_⟩
            · simp only [hsp2, progressValues_append, progressValues_cons,
                progressValues_splitA, progressValues_nil, List.nil_append,
                List.append_nil]
              try simp
            · intro x hx
              simp only [List.mem_cons, List.not_mem_nil, or_false] at hx
              rw [hx]; norm_num
        | none =>
            obtain ⟨hP, hPb⟩ := loopA_progress_sorted env.chunkProv
              (numChunks duration CHUNK_SECONDS) "" ""
            cases hlp2 : (transcribeChunkLoop env.chunkProv
                (numChunks duration CHUNK_SECONDS)
                (List.range (numChunks duration CHUNK_SECONDS)) "" "").2 with
            | error e =>
                obtain ⟨hpw, hbd⟩ := hblock _ hP hPb [] (Or.inl rfl)
                refine ⟨50 :: 60 :: (progressValues (transcribeChunkLoop env.chunkProv
                    (numChunks duration CHUNK_SECONDS)
                    (List.range (numChunks duration CHUNK_SECONDS)) "" "").1 ++ []),
                  ?_, hpw, hbd⟩
                simp only [hsp2, hlp2, progressValues_append, progressValues_cons,
                  progressValues_splitA, progressValues_nil, List.nil_append,
                  List.append_nil]
                try simp
            | ok t =>
                obtain ⟨hpw, hbd⟩ := hblock _ hP hPb [95, 100] (Or.inr rfl)
                refine ⟨50 :: 60 :: (progressValues (transcribeChunkLoop env.chunkProv
                    (numChunks duration CHUNK_SECONDS)
                    (List.range (numChunks duration CHUNK_SECONDS)) "" "").1 ++ [95, 100]),
                  ?_, hpw, hbd⟩
                simp only [hsp2, hlp2, progressValues_append, progressValues_cons,
                  progressValues_splitA, transcribeFinish_progress,
                  progressValues_nil, List.nil_append, List.append_nil]
                try simp
  · rw [transcribeProcessed, if_neg hs]
    cases hdp : env.directProv with
    | error e =>
        refine ⟨[70], ?_, by simp, ?_⟩
        · simp only [progressValues_append, progressValues_cons, progressValues_nil]
          try simp
        · intro x hx
          simp only [List.mem_cons, List.not_mem_nil, or_false] at hx
          rw [hx]; norm_num
    | ok t =>
        refine ⟨[70, 95, 100], ?_, ?_, ?_⟩
        · simp only [progressValues_append, progressValues_cons,
            transcribeFinish_progress, progressValues_nil]
          try simp
        · simp [List.pairwise_cons]
          norm_num
        · intro x hx
          simp only [List.mem_cons, List.not_mem_nil, or_false] at hx
          rcases hx with rfl | rfl | rfl <;> norm_num

/-- C7: on every run of the transcribe.js endpoint — direct or segmented,
on any oracle outcome — the progress percentages emitted over SSE are
monotonically non-decreasing. -/
theorem progress_monotone (env : TEnv) :
    (progressValues (transcribeHandler env)).Pairwise (· ≤ ·) := by
  have hcross : ∀ (hdr ptail : List ℚ), hdr.Pairwise (· ≤ ·) →
      ptail.Pairwise (· ≤ ·) → (∀ a ∈ hdr, a ≤ 50) → (∀ b ∈ ptail, (50 : ℚ) ≤ b) →
      (hdr ++ ptail).Pairwise (· ≤ ·) := by
    intro hdr ptail h1 h2 h3 h4
    rw [List.pairwise_append]
    exact ⟨h1, h2, fun a ha b hb => (h3 a ha).trans (h4 b hb)⟩
  cases hpr : env.parseResult with
  | error e => simp [transcribeHandler, hpr, progressValues]
  | ok o =>
      cases o with
      | none => simp [transcribeHandler, hpr, progressValues]
      | some fileSize =>
          by_cases h1 : UPLOAD_CAP < fileSize
          · simp [transcribeHandler, hpr, h1, progressValues, List.filterMap_cons]
          · by_cases h2 : MAX_FILE_SIZE < fileSize
            · cases hco : env.compressOutcome with
              | error e =>
                  simp [transcribeHandler, hpr, h1, h2, hco, progressValues,
                    List.filterMap_cons, List.pairwise_cons]
                  norm_num
              | ok csz =>
                  obtain ⟨ptail, heq, hpw, hbd⟩ := transcribeProcessed_progress env
                    ([Ev.createFile .upload,
                      Ev.sseProgress 10 "File uploaded successfully"] ++
                      [Ev.sseProgress 20 "Processing audio file..."] ++
                      [Ev.compressEv, Ev.createFile .compressed,
                        Ev.sseProgress 40 "Audio compressed"]) true .compressed csz
                  have htrace : transcribeHandler env =
                      transcribeProcessed env
                        ([Ev.createFile .upload,
                          Ev.sseProgress 10 "File uploaded successfully"] ++
                          [Ev.sseProgress 20 "Processing audio file..."] ++
                          [Ev.compressEv, Ev.createFile .compressed,
                            Ev.sseProgress 40 "Audio compressed"]) true .compressed csz := by
                    simp [transcribeHandler, hpr, h1, h2, hco]
                  rw [htrace, heq]
                  have hhdr : progressValues
                      ([Ev.createFile .upload,
                        Ev.sseProgress 10 "File uploaded successfully"] ++
                        [Ev.sseProgress 20 "Processing audio file..."] ++
                        [Ev.compressEv, Ev.createFile .compressed,
                          Ev.sseProgress 40 "Audio compressed"]) = [10, 20, 40] := by
                    simp [progressValues_append, progressValues_cons, progressValues]
                  rw [hhdr]
                  refine hcross _ _ ?_ hpw ?_ (fun b hb => (hbd b hb).1)
                  · simp [List.pairwise_cons]
                    norm_num
                  · intro a ha
                    simp only [List.mem_cons, List.not_mem_nil, or_false] at ha
                    rcases ha with rfl | rfl | rfl <;> norm_num
            · obtain ⟨ptail, heq, hpw, hbd⟩ := transcribeProcessed_progress env
                ([Ev.createFile .upload,
                  Ev.sseProgress 10 "File uploaded successfully"] ++
                  [Ev.sseProgress 20 "Processing audio file..."]) false .upload fileSize
              have htrace : transcribeHandler env =
                  transcribeProcessed env
                    ([Ev.createFile .upload,
                      Ev.sseProgress 10 "File uploaded successfully"] ++
                      [Ev.sseProgress 20 "Processing audio file..."]) false .upload fileSize := by
                simp [transcribeHandler, hpr, h1, h2]
              rw [htrace, heq]
              have hhdr : progressValues
                  ([Ev.createFile .upload,
                    Ev.sseProgress 10 "File uploaded successfully"] ++
                    [Ev.sseProgress 20 "Processing audio file..."]) = [10, 20] := by
                simp [progressValues_append, progressValues_cons, progressValues]
              rw [hhdr]
              refine hcross _ _ ?_ hpw ?_ (fun b hb => (hbd b hb).1)
              · simp [List.pairwise_cons]
                norm_num
              · intro a ha
                simp only [List.mem_cons, List.not_mem_nil, or_false] at ha
                rcases ha with rfl | rfl <;> norm_num
/-- Recognizes ffmpeg compression invocations. -/
def isCompressEv : Ev → Bool
  | .compressEv => true
  | _ => false

lemma isCompressEv_eq_true {e : Ev} (h : isCompressEv e = true) : e = Ev.compressEv := by
  cases e <;> simp [isCompressEv] at h ⊢

/-- C10: an uploaded file whose on-disk size exceeds `MAX_FILE_SIZE * 4`
(100MB) makes the transcribe.js endpoint emit exactly the
`File too large (max 100MB)` error and end the stream — no compression, no
chunking, no provider call, no transcript; a file at or below the cap
proceeds past the gate to the processing stage. -/
theorem uploadCap_gate (env : TEnv) (fsz : ℕ)
    (hp : env.parseResult = .ok (some fsz)) :
    (UPLOAD_CAP < fsz →
      transcribeHandler env =
        [Ev.createFile .upload, Ev.sseProgress 10 "File uploaded successfully",
         Ev.sseError "File too large (max 100MB)", Ev.resEnd, Ev.resEnd])
    ∧ (fsz ≤ UPLOAD_CAP →
        Ev.sseProgress 20 "Processing audio file..." ∈ transcribeHandler env) := by
  constructor
  · intro h
    simp [transcribeHandler, hp, h]
  · intro h
    have h1 : ¬ UPLOAD_CAP < fsz := not_lt.mpr h
    by_cases h2 : MAX_FILE_SIZE < fsz
    · cases hco : env.compressOutcome with
      | error e => simp [transcribeHandler, hp, h1, h2, hco]
      | ok csz =>
          have htrace : transcribeHandler env =
              transcribeProcessed env
                ([Ev.createFile .upload,
                  Ev.sseProgress 10 "File uploaded successfully"] ++
                  [Ev.sseProgress 20 "Processing audio file..."] ++
                  [Ev.compressEv, Ev.createFile .compressed,
                    Ev.sseProgress 40 "Audio compressed"]) true .compressed csz := by
            simp [transcribeHandler, hp, h1, h2, hco]
          obtain ⟨tail, heq, _, _⟩ := transcribeProcessed_shape env
            ([Ev.createFile .upload,
              Ev.sseProgress 10 "File uploaded successfully"] ++
              [Ev.sseProgress 20 "Processing audio file..."] ++
              [Ev.compressEv, Ev.createFile .compressed,
                Ev.sseProgress 40 "Audio compressed"]) true .compressed csz
          rw [htrace, heq]
          simp
    · have htrace : transcribeHandler env =
          transcribeProcessed env
            ([Ev.createFile .upload,
              Ev.sseProgress 10 "File uploaded successfully"] ++
              [Ev.sseProgress 20 "Processing audio file..."]) false .upload fsz := by
        simp [transcribeHandler, hp, h1, h2]
      obtain ⟨tail, heq, _, _⟩ := transcribeProcessed_shape env
        ([Ev.createFile .upload,
          Ev.sseProgress 10 "File uploaded successfully"] ++
          [Ev.sseProgress 20 "Processing audio file..."]) false .upload fsz
      rw [htrace, heq]
      simp

/-- C10 witness at sizes 104857601 (rejected) and 104857600 (proceeds). -/
theorem uploadCap_gate_witness :
    ({ parseResult := .ok (some 104857601), compressOutcome := .ok 0,
       probeOutcome := .ok 0, chunkCreate := fun _ => none,
       chunkProv := fun _ _ => .ok "", directProv := .ok "t" : TEnv}.parseResult
        = .ok (some 104857601))
    ∧ UPLOAD_CAP < 104857601
    ∧ transcribeHandler
        { parseResult := .ok (some 104857601), compressOutcome := .ok 0,
          probeOutcome := .ok 0, chunkCreate := fun _ => none,
          chunkProv := fun _ _ => .ok "", directProv := .ok "t" } =
        [Ev.createFile .upload, Ev.sseProgress 10 "File uploaded successfully",
         Ev.sseError "File too large (max 100MB)", Ev.resEnd, Ev.resEnd] :=
  ⟨rfl, by norm_num [UPLOAD_CAP],
    (uploadCap_gate _ 104857601 rfl).1 (by norm_num [UPLOAD_CAP])⟩

/-- C9: the compression pre-step of the transcribe.js endpoint runs exactly
once when the uploaded size exceeds `MAX_FILE_SIZE` (and the run passed the
100MB gate), otherwise not at all; afterwards the branch decision is
re-evaluated against the compressed size — chunking happens iff the
compressed file still exceeds `MAX_FILE_SIZE`, and no second compression
ever occurs. -/
theorem compression_at_most_once (env : TEnv) (fsz : ℕ)
    (hp : env.parseResult = .ok (some fsz)) :
    ((transcribeHandler env).countP isCompressEv =
      if MAX_FILE_SIZE < fsz ∧ fsz ≤ UPLOAD_CAP then 1 else 0)
    ∧ (∀ csz, MAX_FILE_SIZE < fsz → fsz ≤ UPLOAD_CAP →
        env.compressOutcome = .ok csz →
        ((Ev.sseProgress 50 "Splitting into 9-minute chunks..." ∈ transcribeHandler env)
          ↔ MAX_FILE_SIZE < csz)) := by
  constructor
  · by_cases h1 : UPLOAD_CAP < fsz
    · have hcond : ¬(MAX_FILE_SIZE < fsz ∧ fsz ≤ UPLOAD_CAP) := by
        rintro ⟨_, hle⟩
        exact absurd h1 (not_lt.mpr hle)
      rw [if_neg hcond]
      simp [transcribeHandler, hp, h1, isCompressEv]
    · have hle : fsz ≤ UPLOAD_CAP := not_lt.mp h1
      by_cases h2 : MAX_FILE_SIZE < fsz
      · rw [if_pos ⟨h2, hle⟩]
        cases hco : env.compressOutcome with
        | error e => simp [transcribeHandler, hp, h1, h2, hco, isCompressEv]
        | ok csz =>
            have htrace : transcribeHandler env =
                transcribeProcessed env
                  ([Ev.createFile .upload,
                    Ev.sseProgress 10 "File uploaded successfully"] ++
                    [Ev.sseProgress 20 "Processing audio file..."] ++
                    [Ev.compressEv, Ev.createFile .compressed,
                      Ev.sseProgress 40 "Audio compressed"]) true .compressed csz := by
              simp [transcribeHandler, hp, h1, h2, hco]
            obtain ⟨tail, heq, hc, _⟩ := transcribeProcessed_shape env
              ([Ev.createFile .upload,
                Ev.sseProgress 10 "File uploaded successfully"] ++
                [Ev.sseProgress 20 "Processing audio file..."] ++
                [Ev.compressEv, Ev.createFile .compressed,
                  Ev.sseProgress 40 "Audio compressed"]) true .compressed csz
            rw [htrace, heq]
            have htail : tail.countP isCompressEv = 0 := by
              rw [List.countP_eq_zero]
              intro e he hce
              exact hc ((isCompressEv_eq_true hce) ▸ he)
            rw [List.countP_append, htail]
            simp [List.countP_cons, isCompressEv]
      · have hcond : ¬(MAX_FILE_SIZE < fsz ∧ fsz ≤ UPLOAD_CAP) := by
          rintro ⟨hlt, _⟩
          exact h2 hlt
        rw [if_neg hcond]
        have htrace : transcribeHandler env =
            transcribeProcessed env
              ([Ev.createFile .upload,
                Ev.sseProgress 10 "File uploaded successfully"] ++
                [Ev.sseProgress 20 "Processing audio file..."]) false .upload fsz := by
          simp [transcribeHandler, hp, h1, h2]
        obtain ⟨tail, heq, hc, _⟩ := transcribeProcessed_shape env
          ([Ev.createFile .upload,
            Ev.sseProgress 10 "File uploaded successfully"] ++
            [Ev.sseProgress 20 "Processing audio file..."]) false .upload fsz
        rw [htrace, heq]
        have htail : tail.countP isCompressEv = 0 := by
          rw [List.countP_eq_zero]
          intro e he hce
          exact hc ((isCompressEv_eq_true hce) ▸ he)
        rw [List.countP_append, htail]
        simp [List.countP_cons, isCompressEv]
  · intro csz h2 h3 hco
    have h1 : ¬ UPLOAD_CAP < fsz := not_lt.mpr h3
    have htrace : transcribeHandler env =
        transcribeProcessed env
          ([Ev.createFile .upload,
            Ev.sseProgress 10 "File uploaded successfully"] ++
            [Ev.sseProgress 20 "Processing audio file..."] ++
            [Ev.compressEv, Ev.createFile .compressed,
              Ev.sseProgress 40 "Audio compressed"]) true .compressed csz := by
      simp [transcribeHandler, hp, h1, h2, hco]
    obtain ⟨tail, heq, _, hiff⟩ := transcribeProcessed_shape env
      ([Ev.createFile .upload,
        Ev.sseProgress 10 "File uploaded successfully"] ++
        [Ev.sseProgress 20 "Processing audio file..."] ++
        [Ev.compressEv, Ev.createFile .compressed,
          Ev.sseProgress 40 "Audio compressed"]) true .compressed csz
    rw [htrace, heq, List.mem_append]
    constructor
    · rintro (h | h)
      · simp at h
      · exact hiff.mp h
    · intro h
      exact Or.inr (hiff.mpr h)

/-- C9 witness: a 30MB upload is compressed once; at compressed size 28MB
it is still over the ceiling and goes to chunking (no second compression). -/
theorem compression_at_most_once_witness :
    ({ parseResult := .ok (some 31457280), compressOutcome := .ok 29360128,
       probeOutcome := .ok 1500, chunkCreate := fun _ => none,
       chunkProv := fun _ _ => .ok "x", directProv := .ok "t" : TEnv}.parseResult
        = .ok (some 31457280))
    ∧ MAX_FILE_SIZE < 31457280 ∧ (31457280 : ℕ) ≤ UPLOAD_CAP
    ∧ ((transcribeHandler
        { parseResult := .ok (some 31457280), compressOutcome := .ok 29360128,
          probeOutcome := .ok 1500, chunkCreate := fun _ => none,
          chunkProv := fun _ _ => .ok "x", directProv := .ok "t" }).countP isCompressEv = 1)
    ∧ (Ev.sseProgress 50 "Splitting into 9-minute chunks..." ∈ transcribeHandler
        { parseResult := .ok (some 31457280), compressOutcome := .ok 29360128,
          probeOutcome := .ok 1500, chunkCreate := fun _ => none,
          chunkProv := fun _ _ => .ok "x", directProv := .ok "t" }) := by
  have hmain := compression_at_most_once
    { parseResult := .ok (some 31457280), compressOutcome := .ok 29360128,
      probeOutcome := .ok 1500, chunkCreate := fun _ => none,
      chunkProv := fun _ _ => .ok "x", directProv := .ok "t" } 31457280 rfl
  refine ⟨rfl, by norm_num [MAX_FILE_SIZE], by norm_num [UPLOAD_CAP], ?_, ?_⟩
  · rw [hmain.1, if_pos]
    exact ⟨by norm_num [MAX_FILE_SIZE], by norm_num [UPLOAD_CAP]⟩
  · exact (hmain.2 29360128 (by norm_num [MAX_FILE_SIZE])
      (by norm_num [UPLOAD_CAP]) rfl).mpr (by norm_num [MAX_FILE_SIZE])

lemma provCall_notin_finish (b : Bool) (t : String) (f : FileRef) (pr : Option String) :
    Ev.provCall f pr ∉ transcribeFinish b t := by
  cases b <;> simp [transcribeFinish]

/-- When the processed file still exceeds the ceiling (chunked branch), the
only provider calls `transcribeProcessed` adds are on chunk files. -/
lemma directCall_notin_processed_chunked (env : TEnv) (evs : List Ev) (c : Bool)
    (p : FileRef) (s : ℕ) (hs : MAX_FILE_SIZE < s) (f : FileRef) (pr : Option String)
    (hf : ∀ i, f ≠ .chunk i) (hevs : Ev.provCall f pr ∉ evs) :
    Ev.provCall f pr ∉ transcribeProcessed env evs c p s := by
  rw [transcribeProcessed, if_pos hs]
  cases hpr : env.probeOutcome with
  | error e =>
      simp only [List.append_assoc, List.cons_append, List.singleton_append,
        List.nil_append, List.mem_append, List.mem_cons, List.not_mem_nil, or_false]
      rintro (h | h | h | h)
      · exact hevs h
      · simp at h
      · simp at h
      · simp at h
  | ok duration =>
      cases hsp2 : (transcribeSplitLoop env.chunkCreate
          (List.range (numChunks duration CHUNK_SECONDS))).2 with
      | some e =>
          simp only [hsp2]
          simp only [List.append_assoc, List.cons_append, List.singleton_append,
            List.nil_append, List.mem_append, List.mem_cons, List.not_mem_nil, or_false]
          rintro (h | h | h | h | h)
          · exact hevs h
          · simp at h
          · obtain ⟨i, _, heq⟩ := transcribeSplitLoop_events_mem _ _ _ h
            simp at heq
          · simp at h
          · simp at h
      | none =>
          cases hlp2 : (transcribeChunkLoop env.chunkProv
              (numChunks duration CHUNK_SECONDS)
              (List.range (numChunks duration CHUNK_SECONDS)) "" "").2 with
          | error e =>
              simp only [hsp2, hlp2]
              simp only [List.append_assoc, List.cons_append, List.singleton_append,
                List.nil_append, List.mem_append, List.mem_cons, List.not_mem_nil,
                or_false]
              rintro (h | h | h | h | h | h | h)
              · exact hevs h
              · simp at h
              · obtain ⟨i, _, heq⟩ := transcribeSplitLoop_events_mem _ _ _ h
                simp at heq
              · simp at h
              · rcases transcribeChunkLoop_events_mem _ _ _ _ _ _ h with
                  ⟨i, m, _, heq⟩ | ⟨i, p2, _, heq⟩ | ⟨i, _, heq⟩
                · simp at heq
                · rw [Ev.provCall.injEq] at heq
                  exact hf i heq.1
                · simp at heq
              · simp at h
              · simp at h
          | ok t =>
              simp only [hsp2, hlp2]
              simp only [List.append_assoc, List.cons_append, List.singleton_append,
                List.nil_append, List.mem_append, List.mem_cons, List.not_mem_nil,
                or_false]
              rintro (h | h | h | h | h)
              · exact hevs h
              · simp at h
              · obtain ⟨i, _, heq⟩ := transcribeSplitLoop_events_mem _ _ _ h
                simp at heq
              · simp at h
              · rcases h with h | h
                · rcases transcribeChunkLoop_events_mem _ _ _ _ _ _ h with
                    ⟨i, m, _, heq⟩ | ⟨i, p2, _, heq⟩ | ⟨i, _, heq⟩
                  · simp at heq
                  · rw [Ev.provCall.injEq] at heq
                    exact hf i heq.1
                  · simp at heq
                · exact provCall_notin_finish _ _ _ _ h

/-- When the processed file is within the ceiling (direct branch),
`transcribeProcessed` performs the direct provider call with no prompt. -/
lemma directCall_in_processed_direct (env : TEnv) (evs : List Ev) (c : Bool)
    (p : FileRef) (s : ℕ) (hs : ¬ MAX_FILE_SIZE < s) :
    Ev.provCall p none ∈ transcribeProcessed env evs c p s := by
  rw [transcribeProcessed, if_neg hs]
  have hpn : promptOf "" = none := by simp [promptOf]
  cases hdp : env.directProv <;> simp [hpn]

/-- C4: the direct-transcription branch decision.  In the history.js
endpoint the direct branch is taken iff
`actualSize ≤ MAX_FILE_SIZE ∧ duration ≤ MAX_DURATION`, both comparisons
inclusive.  In the transcribe.js endpoint the branch checks only the
(post-compression) size, inclusively — its policy has no duration ceiling. -/
theorem directThreshold_boundary :
    (∀ (env : HEnv) (nm : String) (fsz : ℕ) (dur : ℚ) (psz : ℕ),
      env.apiKey = true →
      env.parseResult = .ok (some (nm, fsz)) →
      env.probeOutcome = .ok (dur, psz) →
      ((Ev.provCall .hUpload none ∈ (historyHandler env).1) ↔
        ((if psz = 0 then fsz else psz) ≤ MAX_FILE_SIZE ∧ dur ≤ H_MAX_DURATION)))
    ∧ (∀ (env : TEnv) (fsz csz : ℕ),
      env.parseResult = .ok (some fsz) →
      fsz ≤ UPLOAD_CAP →
      env.compressOutcome = .ok csz →
      (((Ev.provCall .upload none ∈ transcribeHandler env) ∨
        (Ev.provCall .compressed none ∈ transcribeHandler env)) ↔
        (if MAX_FILE_SIZE < fsz then csz else fsz) ≤ MAX_FILE_SIZE)) := by
  constructor
  · intro env nm fsz dur psz hkey hp hpr
    by_cases hcond : (if psz = 0 then fsz else psz) ≤ MAX_FILE_SIZE ∧ dur ≤ H_MAX_DURATION
    · rw [iff_true_intro hcond, iff_true]
      cases hdp : env.hDirectProv with
      | ok tx => simp [historyHandler, hkey, hp, hpr, hcond, hdp]
      | error e => simp [historyHandler, hkey, hp, hpr, hcond, hdp]
    · rw [iff_false_intro hcond, iff_false]
      cases hsp2 : (historySplitLoop env.hChunkCreate
          (List.range (numChunks dur H_CHUNK_DURATION))).2 with
      | some e =>
          simp only [historyHandler, hkey, hp, hpr, hcond, hsp2,
            Bool.true_eq_false, if_false, if_neg hcond]
          intro hmem
          simp at hmem
          obtain ⟨i, _, heq⟩ := historySplitLoop_events_mem _ _ _ hmem
          simp at heq
      | none =>
          simp only [historyHandler, hkey, hp, hpr, hcond, hsp2,
            Bool.true_eq_false, if_false, if_neg hcond]
          rw [historyChunkLoop_eq]
          intro hmem
          simp at hmem
          obtain ⟨i, _, heq⟩ := historySplitLoop_events_mem _ _ _ hmem
          simp at heq
  · intro env fsz csz hp hcap hco
    have h1 : ¬ UPLOAD_CAP < fsz := not_lt.mpr hcap
    by_cases h2 : MAX_FILE_SIZE < fsz
    · rw [if_pos h2]
      have htrace : transcribeHandler env =
          transcribeProcessed env
            ([Ev.createFile .upload,
              Ev.sseProgress 10 "File uploaded successfully"] ++
              [Ev.sseProgress 20 "Processing audio file..."] ++
              [Ev.compressEv, Ev.createFile .compressed,
                Ev.sseProgress 40 "Audio compressed"]) true .compressed csz := by
        simp [transcribeHandler, hp, h1, h2, hco]
      rw [htrace]
      by_cases h3 : MAX_FILE_SIZE < csz
      · rw [iff_false_intro (not_le.mpr h3), iff_false]
        push_neg
        constructor
        · exact directCall_notin_processed_chunked env _ true .compressed csz h3
            .upload none (by intro i h; simp at h) (by simp)
        · exact directCall_notin_processed_chunked env _ true .compressed csz h3
            .compressed none (by intro i h; simp at h) (by simp)
      · rw [iff_true_intro (not_lt.mp h3), iff_true]
        exact Or.inr (directCall_in_processed_direct env _ true .compressed csz h3)
    · rw [if_neg h2]
      have h3 : ¬ MAX_FILE_SIZE < fsz := h2
      rw [iff_true_intro (not_lt.mp h3), iff_true]
      have htrace : transcribeHandler env =
          transcribeProcessed env
            ([Ev.createFile .upload,
              Ev.sseProgress 10 "File uploaded successfully"] ++
              [Ev.sseProgress 20 "Processing audio file..."]) false .upload fsz := by
        simp [transcribeHandler, hp, h1, h2]
      rw [htrace]
      exact Or.inl (directCall_in_processed_direct env _ false .upload fsz h3)

/-- C4 witness environment: a file at exactly both ceilings
(25MB probed size, 300 s duration). -/
def envBoundary : HEnv :=
  { apiKey := true
    parseResult := .ok (some ("b.mp3", 1000))
    probeOutcome := .ok (300, 26214400)
    hChunkCreate := fun _ => none
    hProv := fun _ => .ok ""
    hDirectProv := .ok "t"
    saveOutcome := .ok () }

/-- C4 witness: a file at exactly both ceilings is transcribed directly. -/
theorem directThreshold_boundary_witness :
    envBoundary.apiKey = true
    ∧ envBoundary.parseResult = .ok (some ("b.mp3", 1000))
    ∧ envBoundary.probeOutcome = .ok (300, 26214400)
    ∧ Ev.provCall .hUpload none ∈ (historyHandler envBoundary).1 :=
  ⟨rfl, rfl, rfl,
    (directThreshold_boundary.1 envBoundary "b.mp3" 1000 300 26214400
        rfl rfl rfl).mpr
      (by norm_num [MAX_FILE_SIZE, H_MAX_DURATION])⟩

lemma providerCalls_append (a b : List Ev) :
    providerCalls (a ++ b) = providerCalls a ++ providerCalls b := by
  simp [providerCalls, List.filterMap_append]

lemma providerCalls_nil : providerCalls [] = [] := rfl

lemma providerCalls_cons (e : Ev) (l : List Ev) :
    providerCalls (e :: l) =
      (match e with
       | .provCall f _ => f :: providerCalls l
       | _ => providerCalls l) := by
  cases e <;> simp [providerCalls, List.filterMap_cons]

lemma finalTranscripts_append (a b : List Ev) :
    finalTranscripts (a ++ b) = finalTranscripts a ++ finalTranscripts b := by
  simp [finalTranscripts, List.filterMap_append]

lemma finalTranscripts_nil : finalTranscripts [] = [] := rfl

lemma finalTranscripts_cons (e : Ev) (l : List Ev) :
    finalTranscripts (e :: l) =
      (match e with
       | .sseFinal _ t => t :: finalTranscripts l
       | _ => finalTranscripts l) := by
  cases e <;> simp [finalTranscripts, List.filterMap_cons]

lemma providerCalls_finish (b : Bool) (t : String) :
    providerCalls (transcribeFinish b t) = [] := by
  cases b <;> simp [transcribeFinish, providerCalls_cons, providerCalls_nil]

lemma finalTranscripts_finish (b : Bool) (t : String) :
    finalTranscripts (transcribeFinish b t) = [t.trim] := by
  cases b <;> simp [transcribeFinish, finalTranscripts_cons, finalTranscripts_nil]

lemma providerCalls_of_createFiles (fr : ℕ → FileRef) (l : List ℕ) :
    providerCalls (l.map fun i => Ev.createFile (fr i)) = [] := by
  induction l with
  | nil => rfl
  | cons i rest ih => simp [providerCalls_cons, ih]

lemma providerCalls_of_provCalls (fr : ℕ → FileRef) (l : List ℕ) :
    providerCalls (l.map fun i => Ev.provCall (fr i) none) = l.map fr := by
  induction l with
  | nil => rfl
  | cons i rest ih => simp [providerCalls_cons, ih]

lemma finalTranscripts_of_createFiles (fr : ℕ → FileRef) (l : List ℕ) :
    finalTranscripts (l.map fun i => Ev.createFile (fr i)) = [] := by
  induction l with
  | nil => rfl
  | cons i rest ih => simp [finalTranscripts_cons, ih]

lemma finalTranscripts_of_provCalls (fr : ℕ → FileRef) (l : List ℕ) :
    finalTranscripts (l.map fun i => Ev.provCall (fr i) none) = [] := by
  induction l with
  | nil => rfl
  | cons i rest ih => simp [finalTranscripts_cons, ih]

/-- When every chunk materialization succeeds, the transcribe.js split loop
creates exactly the chunk files of its index list, in order. -/
lemma transcribeSplitLoop_ok (c : ℕ → Option String) :
    ∀ l, (∀ i ∈ l, c i = none) →
      transcribeSplitLoop c l = (l.map fun i => Ev.createFile (.chunk i), none) := by
  intro l
  induction l with
  | nil => intro _; simp [transcribeSplitLoop]
  | cons i rest ih =>
      intro h
      have hi : c i = none := h i (by simp)
      have hr := ih (fun j hj => h j (by simp [hj]))
      simp [transcribeSplitLoop, hi, hr]
/-- C5: segments are transcribed strictly sequentially in index order, and
the full transcript is the index-ordered join of the per-segment texts.

In the history.js endpoint (any provider outcomes): the provider-call trace
of a chunked run is exactly chunks `0..N-1` in order, and the transcript
handed to persistence is the `' '`-join of the slot texts in that order.

In the transcribe.js endpoint (all chunk calls succeeding): the
provider-call trace is exactly chunks `0..n-1` in order, and the final SSE
transcript is the join of the per-chunk texts, each followed by the `' '`
separator, trimmed. -/
theorem sequential_order :
    (∀ (env : HEnv) (nm : String) (fsz : ℕ) (dur : ℚ) (psz : ℕ),
      env.apiKey = true →
      env.parseResult = .ok (some (nm, fsz)) →
      env.probeOutcome = .ok (dur, psz) →
      ¬((if psz = 0 then fsz else psz) ≤ MAX_FILE_SIZE ∧ dur ≤ H_MAX_DURATION) →
      (∀ i, env.hChunkCreate i = none) →
      (providerCalls (historyHandler env).1 =
        (List.range (numChunks dur H_CHUNK_DURATION)).map (fun i => FileRef.hChunk i)
      ∧ Ev.saveAttempt nm (String.intercalate " "
          ((List.range (numChunks dur H_CHUNK_DURATION)).map
            (historyChunkResult env.hProv))) ∈ (historyHandler env).1))
    ∧ (∀ (env : TEnv) (fsz csz : ℕ) (dur : ℚ) (ts : List String),
      env.parseResult = .ok (some fsz) →
      fsz ≤ UPLOAD_CAP → MAX_FILE_SIZE < fsz →
      env.compressOutcome = .ok csz → MAX_FILE_SIZE < csz →
      env.probeOutcome = .ok dur →
      (∀ i, env.chunkCreate i = none) →
      transcribeChunkTexts env.chunkProv
        (List.range (numChunks dur CHUNK_SECONDS)) "" = some ts →
      (providerCalls (transcribeHandler env) =
        (List.range (numChunks dur CHUNK_SECONDS)).map (fun i => FileRef.chunk i)
      ∧ finalTranscripts (transcribeHandler env) =
        [(String.join (ts.map (fun t => t ++ " "))).trim])) := by
  constructor
  · intro env nm fsz dur psz hkey hp hpr hcond hcr
    have hsplit := historySplitLoop_ok env.hChunkCreate
      (List.range (numChunks dur H_CHUNK_DURATION)) (fun i _ => hcr i)
    have htrace : (historyHandler env).1 =
        [Ev.createFile .hUpload] ++ Ev.mkdirEv .hDir ::
          ((List.range (numChunks dur H_CHUNK_DURATION)).map
              (fun i => Ev.createFile (.hChunk i)) ++
            ((List.range (numChunks dur H_CHUNK_DURATION)).map
                (fun i => Ev.provCall (.hChunk i) none) ++
              [Ev.saveAttempt nm (String.intercalate " "
                  ((List.range (numChunks dur H_CHUNK_DURATION)).map
                    (historyChunkResult env.hProv))),
               Ev.unlinkF .hUpload, Ev.rmdirEv .hDir])) := by
      simp [historyHandler, hkey, hp, hpr, hcond, hsplit, historyChunkLoop_eq]
    rw [htrace]
    constructor
    · simp only [providerCalls_append, providerCalls_cons, providerCalls_nil,
        providerCalls_of_createFiles, providerCalls_of_provCalls,
        List.nil_append, List.append_nil]
      try simp [providerCalls_cons, providerCalls_nil]
    · simp
  · intro env fsz csz dur ts hp hcap h2 hco h3 hprobe hcr htexts
    have h1 : ¬ UPLOAD_CAP < fsz := not_lt.mpr hcap
    have hsplit := transcribeSplitLoop_ok env.chunkCreate
      (List.range (numChunks dur CHUNK_SECONDS)) (fun i _ => hcr i)
    have hloop := transcribeChunkLoop_of_texts env.chunkProv
      (numChunks dur CHUNK_SECONDS)
      (List.range (numChunks dur CHUNK_SECONDS)) "" "" ts htexts
    have hlen := transcribeChunkTexts_length env.chunkProv
      (List.range (numChunks dur CHUNK_SECONDS)) "" ts htexts
    have htrace : transcribeHandler env =
        ([Ev.createFile .upload,
          Ev.sseProgress 10 "File uploaded successfully"] ++
          [Ev.sseProgress 20 "Processing audio file..."] ++
          [Ev.compressEv, Ev.createFile .compressed,
            Ev.sseProgress 40 "Audio compressed"]) ++
          Ev.sseProgress 50 "Splitting into 9-minute chunks..." ::
            ((List.range (numChunks dur CHUNK_SECONDS)).map
                (fun i => Ev.createFile (.chunk i)) ++
              Ev.sseProgress 60 ("Processing " ++
                  toString (numChunks dur CHUNK_SECONDS) ++ " chunks...") ::
                (transcribeLoopTrace (numChunks dur CHUNK_SECONDS)
                    (List.range (numChunks dur CHUNK_SECONDS)) "" ts ++
                  transcribeFinish true
                    (ts.foldl (fun acc t => acc ++ t ++ " ") ""))) := by
      rw [transcribeHandler]
      simp only [hp]
      rw [if_neg h1, if_pos h2]
      simp only [hco]
      rw [transcribeProcessed, if_pos h3]
      simp only [hprobe, hsplit, hloop]
      simp [List.append_assoc]
    rw [htrace]
    constructor
    · simp only [providerCalls_append, providerCalls_cons, providerCalls_nil,
        providerCalls_of_createFiles, providerCalls_finish,
        providerCalls_loopTrace _ _ _ _ (by rw [hlen]),
        List.nil_append, List.append_nil]
      try simp [providerCalls_cons, providerCalls_nil]
    · have hfold : ts.foldl (fun acc t => acc ++ t ++ " ") "" =
          String.join (ts.map (fun t => t ++ " ")) := by
        rw [foldl_append_eq_join]
        exact String.empty_append _
      simp only [finalTranscripts_append, finalTranscripts_cons,
        finalTranscripts_nil, finalTranscripts_of_createFiles,
        finalTranscripts_loopTrace, finalTranscripts_finish, hfold,
        List.nil_append, List.append_nil]
      try simp [finalTranscripts_cons, finalTranscripts_nil]

/-- C5 witness environment: a 30MB upload, still 28MB after compression,
25 minutes of audio (three 9-minute chunks), all provider calls succeed. -/
def envSeq : TEnv :=
  { parseResult := .ok (some 31457280)
    compressOutcome := .ok 29360128
    probeOutcome := .ok 1500
    chunkCreate := fun _ => none
    chunkProv := fun i _ => .ok ("t" ++ toString i)
    directProv := .ok "unused" }

/-- C5 witness: three chunks, called in order 0,1,2; transcript is the
ordered join. -/
theorem sequential_order_witness :
    envSeq.parseResult = .ok (some 31457280)
    ∧ (31457280 : ℕ) ≤ UPLOAD_CAP ∧ MAX_FILE_SIZE < 31457280
    ∧ envSeq.compressOutcome = .ok 29360128 ∧ MAX_FILE_SIZE < 29360128
    ∧ envSeq.probeOutcome = .ok 1500
    ∧ (∀ i, envSeq.chunkCreate i = none)
    ∧ transcribeChunkTexts envSeq.chunkProv
        (List.range (numChunks 1500 CHUNK_SECONDS)) "" = some ["t0", "t1", "t2"]
    ∧ providerCalls (transcribeHandler envSeq) =
        (List.range (numChunks 1500 CHUNK_SECONDS)).map (fun i => FileRef.chunk i)
    ∧ finalTranscripts (transcribeHandler envSeq) =
        [(String.join (["t0", "t1", "t2"].map (fun t => t ++ " "))).trim] := by
  have hn : numChunks 1500 CHUNK_SECONDS = 3 :=
    numChunks_eq _ _ 3 (by norm_num [CHUNK_SECONDS]) (by norm_num [CHUNK_SECONDS])
      (by norm_num [CHUNK_SECONDS])
  have htexts : transcribeChunkTexts envSeq.chunkProv
      (List.range (numChunks 1500 CHUNK_SECONDS)) "" = some ["t0", "t1", "t2"] := by
    rw [hn]
    decide
  have hmain := sequential_order.2 envSeq 31457280 29360128 1500 ["t0", "t1", "t2"]
    rfl (by norm_num [UPLOAD_CAP]) (by norm_num [MAX_FILE_SIZE]) rfl
    (by norm_num [MAX_FILE_SIZE]) rfl (fun i => rfl) htexts
  exact ⟨rfl, by norm_num [UPLOAD_CAP], by norm_num [MAX_FILE_SIZE], rfl,
    by norm_num [MAX_FILE_SIZE], rfl, fun i => rfl, htexts, hmain.1, hmain.2⟩
/-- A chunked history.js run: 500 s of audio (two 4.5-minute chunks), both
chunk transcriptions succeed, the database insert fails. -/
def envChunk2 : HEnv :=
  { apiKey := true
    parseResult := .ok (some ("audio.mp3", 1000))
    probeOutcome := .ok (500, 30000000)
    hChunkCreate := fun _ => none
    hProv := fun i => if i = 0 then .ok "a" else .ok "b"
    hDirectProv := .ok "unused"
    saveOutcome := .error "db down" }

lemma numChunks_500_270 : numChunks 500 H_CHUNK_DURATION = 2 :=
  numChunks_eq _ _ 2 (by norm_num [H_CHUNK_DURATION])
    (by norm_num [H_CHUNK_DURATION]) (by norm_num [H_CHUNK_DURATION])

/-- C6 counterexample: in the chunked history.js run `envChunk2`, chunk 1
is processed while chunk 0's file has not been deleted — indeed no chunk
file is ever deleted in the whole run. -/
theorem segment_file_deletion_cex :
    Ev.provCall (.hChunk 1) none ∈ (historyHandler envChunk2).1
    ∧ Ev.unlinkF (.hChunk 0) ∉ (historyHandler envChunk2).1 := by
  constructor <;>
    simp +decide [historyHandler, envChunk2, numChunks_500_270, historySplitLoop,
      historyChunkLoop, historyChunkResult, MAX_FILE_SIZE, H_MAX_DURATION]

/-- C6 amended: in transcribe.js, each chunk file is unlinked immediately
after its successful transcription and before the next chunk's call (the
block trace), while a failing chunk's file is not deleted (the loop stops
right after the provider call); in history.js, chunk files are never
unlinked at all — neither between segments nor at the end of the run. -/
theorem segment_file_deletion_amended :
    (∀ (prov : ℕ → String → Except String String) (n : ℕ) (l : List ℕ)
        (tr pv : String) (ts : List String),
      transcribeChunkTexts prov l pv = some ts →
      (transcribeChunkLoop prov n l tr pv).1 = transcribeLoopTrace n l pv ts)
    ∧ (∀ (prov : ℕ → String → Except String String) (n i : ℕ) (rest : List ℕ)
        (tr pv e : String),
      prov i pv = .error e →
      (transcribeChunkLoop prov n (i :: rest) tr pv).1 =
        [Ev.sseProgress (chunkProgress i n)
            ("Processing chunk " ++ toString (i + 1) ++ "/" ++ toString n),
         Ev.provCall (.chunk i) (promptOf pv)])
    ∧ (∀ (env : HEnv) (i : ℕ), Ev.unlinkF (.hChunk i) ∉ (historyHandler env).1) := by
  refine ⟨?_, ?_, ?_⟩
  · intro prov n l tr pv ts h
    rw [transcribeChunkLoop_of_texts prov n l tr pv ts h]
  · intro prov n i rest tr pv e h
    simp [transcribeChunkLoop, h]
  · intro env i
    cases hk : env.apiKey with
    | false => simp [historyHandler, hk]
    | true =>
        cases hp : env.parseResult with
        | error e => simp [historyHandler, hk, hp]
        | ok o =>
            cases o with
            | none => simp [historyHandler, hk, hp]
            | some pair =>
                obtain ⟨nm, fsz⟩ := pair
                cases hpr : env.probeOutcome with
                | error e => simp [historyHandler, hk, hp, hpr]
                | ok pr =>
                    obtain ⟨dur, psz⟩ := pr
                    by_cases hcond : (if psz = 0 then fsz else psz) ≤ MAX_FILE_SIZE
                        ∧ dur ≤ H_MAX_DURATION
                    · cases hdp : env.hDirectProv <;>
                        simp [historyHandler, hk, hp, hpr, hcond, hdp]
                    · cases hsp2 : (historySplitLoop env.hChunkCreate
                          (List.range (numChunks dur H_CHUNK_DURATION))).2 with
                      | some e =>
                          simp only [historyHandler, hk, hp, hpr, hsp2,
                            Bool.true_eq_false, if_false, if_neg hcond]
                          intro hmem
                          simp at hmem
                          obtain ⟨j, _, heq⟩ := historySplitLoop_events_mem _ _ _ hmem
                          simp at heq
                      | none =>
                          simp only [historyHandler, hk, hp, hpr, hsp2,
                            Bool.true_eq_false, if_false, if_neg hcond]
                          rw [historyChunkLoop_eq]
                          intro hmem
                          simp at hmem
                          obtain ⟨j, _, heq⟩ := historySplitLoop_events_mem _ _ _ hmem
                          simp at heq

/-- C6 amended witness. -/
theorem segment_file_deletion_amended_witness :
    (transcribeChunkTexts (fun _ _ => .ok "x") [0, 1] "" = some ["x", "x"]
      ∧ (transcribeChunkLoop (fun _ _ => .ok "x") 2 [0, 1] "" "").1 =
          transcribeLoopTrace 2 [0, 1] "" ["x", "x"])
    ∧ ((fun (_ : ℕ) (_ : String) => (Except.error "boom" : Except String String)) 0 ""
          = .error "boom"
      ∧ (transcribeChunkLoop (fun _ _ => .error "boom") 2 [0, 1] "" "").1 =
          [Ev.sseProgress (chunkProgress 0 2) "Processing chunk 1/2",
           Ev.provCall (.chunk 0) (promptOf "")])
    ∧ Ev.unlinkF (.hChunk 0) ∉ (historyHandler envChunk2).1 :=
  ⟨⟨by decide, segment_file_deletion_amended.1 _ 2 [0, 1] "" "" ["x", "x"] (by decide)⟩,
   ⟨rfl, segment_file_deletion_amended.2.1 _ 2 0 [1] "" "" "boom" rfl⟩,
   segment_file_deletion_amended.2.2 envChunk2 0⟩
/-- A segmented transcribe.js run: 30MB upload, 28MB after compression,
25 minutes (three 9-minute chunks); chunk 0 succeeds with "alpha", chunk 1
fails with "boom", chunk 2 would succeed with "gamma". -/
def envAbort : TEnv :=
  { parseResult := .ok (some 31457280)
    compressOutcome := .ok 29360128
    probeOutcome := .ok 1500
    chunkCreate := fun _ => none
    chunkProv := fun i _ =>
      if i = 1 then .error "boom" else (if i = 0 then .ok "alpha" else .ok "gamma")
    directProv := .ok "unused" }

lemma numChunks_1500_540 : numChunks 1500 CHUNK_SECONDS = 3 :=
  numChunks_eq _ _ 3 (by norm_num [CHUNK_SECONDS]) (by norm_num [CHUNK_SECONDS])
    (by norm_num [CHUNK_SECONDS])

lemma envAbort_loop :
    transcribeChunkLoop envAbort.chunkProv 3 (List.range 3) "" "" =
      ([Ev.sseProgress (chunkProgress 0 3)
          ("Processing chunk " ++ toString (0 + 1) ++ "/" ++ toString 3),
        Ev.provCall (.chunk 0) (promptOf ""),
        Ev.unlinkF (.chunk 0),
        Ev.sseProgress (chunkProgress 1 3)
          ("Processing chunk " ++ toString (1 + 1) ++ "/" ++ toString 3),
        Ev.provCall (.chunk 1) (promptOf ("alpha".takeRight 1000))],
       .error ("Failed to transcribe audio: " ++ "boom")) := rfl

/-- C1 counterexample: in the transcribe.js run `envAbort`, where segment 1
fails while segments 0 and 2 would succeed, the run aborts: no final
transcript is emitted, the error is streamed to the caller, and segment 2
is never transcribed. -/
theorem per_segment_failure_cex :
    finalTranscripts (transcribeHandler envAbort) = []
    ∧ Ev.sseError "Failed to transcribe audio: boom" ∈ transcribeHandler envAbort
    ∧ providerCalls (transcribeHandler envAbort) = [.chunk 0, .chunk 1] := by
  have hp : envAbort.parseResult = .ok (some 31457280) := rfl
  have hco : envAbort.compressOutcome = .ok 29360128 := rfl
  have hprobe : envAbort.probeOutcome = .ok 1500 := rfl
  have h1 : ¬ UPLOAD_CAP < 31457280 := by norm_num [UPLOAD_CAP]
  have h2 : MAX_FILE_SIZE < 31457280 := by norm_num [MAX_FILE_SIZE]
  have h3 : MAX_FILE_SIZE < 29360128 := by norm_num [MAX_FILE_SIZE]
  have hsplit := transcribeSplitLoop_ok envAbort.chunkCreate
    (List.range 3) (fun i _ => rfl)
  have htrace : transcribeHandler envAbort =
      ([Ev.createFile .upload,
        Ev.sseProgress 10 "File uploaded successfully"] ++
        [Ev.sseProgress 20 "Processing audio file..."] ++
        [Ev.compressEv, Ev.createFile .compressed,
          Ev.sseProgress 40 "Audio compressed"]) ++
        Ev.sseProgress 50 "Splitting into 9-minute chunks..." ::
          ((List.range 3).map (fun i => Ev.createFile (.chunk i)) ++
            Ev.sseProgress 60 ("Processing " ++ toString 3 ++ " chunks...") ::
              ([Ev.sseProgress (chunkProgress 0 3)
                  ("Processing chunk " ++ toString (0 + 1) ++ "/" ++ toString 3),
                Ev.provCall (.chunk 0) (promptOf ""),
                Ev.unlinkF (.chunk 0),
                Ev.sseProgress (chunkProgress 1 3)
                  ("Processing chunk " ++ toString (1 + 1) ++ "/" ++ toString 3),
                Ev.provCall (.chunk 1) (promptOf ("alpha".takeRight 1000))] ++
                [Ev.sseError ("Failed to transcribe audio: " ++ "boom"),
                 Ev.resEnd])) := by
    rw [transcribeHandler]
    simp only [hp]
    rw [if_neg h1, if_pos h2]
    simp only [hco]
    rw [transcribeProcessed, if_pos h3]
    simp only [hprobe, numChunks_1500_540, hsplit, envAbort_loop]
    simp [List.append_assoc]
  rw [htrace]
  refine ⟨?_, ?_, ?_⟩
  · simp only [finalTranscripts_append, finalTranscripts_cons,
      finalTranscripts_nil, finalTranscripts_of_createFiles,
      List.nil_append, List.append_nil]
    try simp [finalTranscripts_cons, finalTranscripts_nil]
  · simp
  · simp only [providerCalls_append, providerCalls_cons, providerCalls_nil,
      providerCalls_of_createFiles, List.nil_append, List.append_nil]
    try simp [providerCalls_cons, providerCalls_nil]

/-- A chunked history.js run with parametric texts: 750 s of audio (three
4.5-minute chunks); chunk 0 succeeds with `t0`, chunk 1 fails with message
`em`, chunk 2 succeeds with `t2`. -/
def envPlaceholder (t0 t2 em : String) : HEnv :=
  { apiKey := true
    parseResult := .ok (some ("audio.mp3", 1000))
    probeOutcome := .ok (750, 30000000)
    hChunkCreate := fun _ => none
    hProv := fun i => if i = 0 then .ok t0 else (if i = 1 then .error em else .ok t2)
    hDirectProv := .ok "unused"
    saveOutcome := .ok () }

lemma numChunks_750_270 : numChunks 750 H_CHUNK_DURATION = 3 :=
  numChunks_eq _ _ 3 (by norm_num [H_CHUNK_DURATION])
    (by norm_num [H_CHUNK_DURATION]) (by norm_num [H_CHUNK_DURATION])

/-- C1 amended: only the chunked history.js endpoint tolerates a
per-segment failure.  There, with segment 1 failing and segments 0 and 2
succeeding, the segment loop runs to completion — all three chunks are sent
to the provider in order — and the assembled transcript handed to
persistence holds segment 0's and segment 2's real text with the bracketed
error placeholder in slot 1; but no context prompt is ever passed to any
provider call of this endpoint (in particular nothing derived from any
earlier segment).  The transcribe.js endpoint, which does thread the
previous transcript tail as context, aborts the whole run on a segment
failure (see the counterexample). -/
theorem per_segment_failure_amended (t0 t2 em : String) :
    Ev.saveAttempt "audio.mp3" (String.intercalate " "
        [t0, chunkPlaceholder ("Failed to transcribe file: " ++ em), t2])
      ∈ (historyHandler (envPlaceholder t0 t2 em)).1
    ∧ providerCalls (historyHandler (envPlaceholder t0 t2 em)).1 =
        [.hChunk 0, .hChunk 1, .hChunk 2]
    ∧ (∀ f pr, Ev.provCall f pr ∈ (historyHandler (envPlaceholder t0 t2 em)).1 →
        pr = none) := by
  have htrace : (historyHandler (envPlaceholder t0 t2 em)).1 =
      [Ev.createFile .hUpload] ++ Ev.mkdirEv .hDir ::
        ([Ev.createFile (.hChunk 0), Ev.createFile (.hChunk 1),
          Ev.createFile (.hChunk 2)] ++
          ([Ev.provCall (.hChunk 0) none, Ev.provCall (.hChunk 1) none,
            Ev.provCall (.hChunk 2) none] ++
            [Ev.saveAttempt "audio.mp3" (String.intercalate " "
                [t0, chunkPlaceholder ("Failed to transcribe file: " ++ em), t2]),
             Ev.unlinkF .hUpload, Ev.rmdirEv .hDir])) := by
    simp +decide [historyHandler, envPlaceholder, numChunks_750_270,
      historySplitLoop, historyChunkLoop, historyChunkResult, chunkPlaceholder,
      List.range_succ, MAX_FILE_SIZE, H_MAX_DURATION]
  rw [htrace]
  refine ⟨by simp, ?_, ?_⟩
  · simp [providerCalls_append, providerCalls_cons, providerCalls_nil]
  · intro f pr hmem
    simp only [List.append_assoc, List.cons_append, List.singleton_append,
      List.nil_append, List.mem_cons, List.not_mem_nil, or_false] at hmem
    rcases hmem with h | h | h | h | h | h | h | h | h | h | h <;>
      first
        | (rw [Ev.provCall.injEq] at h; exact h.2)
        | simp at h

/-- A direct transcribe.js run whose provider call fails: 10MB upload (no
compression, no chunking), the provider errors with "boom". -/
def leakEnv : TEnv :=
  { parseResult := .ok (some 10485760)
    compressOutcome := .ok 0
    probeOutcome := .ok 0
    chunkCreate := fun _ => none
    chunkProv := fun _ _ => .ok ""
    directProv := .error "boom" }

/-- C3 evaluated at the failing input: the run creates the uploaded temp
file and ends in the error path, and the whole trace contains not a single
file deletion — the uploaded file is left on disk. -/
theorem cleanup_leak_on_error :
    Ev.createFile .upload ∈ transcribeHandler leakEnv
    ∧ (transcribeHandler leakEnv).filter isUnlinkEv = []
    ∧ Ev.sseError "Failed to transcribe audio: boom" ∈ transcribeHandler leakEnv := by
  refine ⟨?_, ?_, ?_⟩ <;> decide

/-- A direct history.js run whose transcription succeeds and whose database
insert fails: 100 s, 1000 bytes, provider returns "hello". -/
def envDirectSave : HEnv :=
  { apiKey := true
    parseResult := .ok (some ("f.mp3", 1000))
    probeOutcome := .ok (100, 1000)
    hChunkCreate := fun _ => none
    hProv := fun _ => .ok ""
    hDirectProv := .ok "hello"
    saveOutcome := .error "db down" }

/-- C8: a persistence failure never changes what the caller receives.  The
`saveTranscription` calls sit inside their own try/catch ("Continue with
response even if database save fails", lines 277 and 340), so the handler's
entire observable behavior — trace and response — is independent of the
database outcome (first conjunct: replacing the save oracle changes
nothing).  Evaluated on both branches with a failing insert: the direct run
`envDirectSave` still answers 200 with transcript "hello", and the chunked
run `envChunk2` still answers 200 with the full joined transcript "a b"
(sent by `res.json` at line 343 before the cleanup `finally`'s
ReferenceError fires), each after attempting the save. -/
theorem persistence_failure_response :
    (∀ (env : HEnv) (s t : Except String Unit),
      historyHandler { env with saveOutcome := s } =
        historyHandler { env with saveOutcome := t })
    ∧ ((historyHandler envDirectSave).2 = .success "hello" 100 1000 none
      ∧ Ev.saveAttempt "f.mp3" "hello" ∈ (historyHandler envDirectSave).1)
    ∧ ((historyHandler envChunk2).2 =
        .success "a b" 500 30000000 (some ["a", "b"])
      ∧ Ev.saveAttempt "audio.mp3" "a b" ∈ (historyHandler envChunk2).1) := by
  refine ⟨fun env s t => rfl, ⟨?_, ?_⟩, ?_, ?_⟩ <;>
    simp +decide [historyHandler, envDirectSave, envChunk2, numChunks_500_270,
      historySplitLoop, historyChunkLoop, historyChunkResult,
      MAX_FILE_SIZE, H_MAX_DURATION]
end AC
